import Mathlib

/-!
Verification development for the camera-based boxing game.

The development shallowly embeds the two core components of the repository:

* the grid-to-stance classifier (`src/camera.js` `detectStance`, and the two
  newer generations of the same file kept in `src/unnamed/part_001`: a 4×4-grid
  version and the final "fine grid" version that collapses its grid by integer
  division before classifying), modelled over exact rationals, and

* the depth sensor / punch detector (`src/depthSensor.js`), modelled over the
  real numbers (the hand-scale computation uses a square root).  JavaScript
  exceptions (property access on `undefined`) are modelled by `Option`:
  a function returns `none` exactly when the original code would throw.

A small heap model at the end captures the reference semantics of the
JavaScript spread operator `{...state}` used for state snapshots.
-/

namespace Grid

/-- The stance enumeration from the renderer (`stances` table in the game
module): all thirteen values, including the two uppercuts. -/
inductive Stance where
  | idle
  | guard
  | guardLeft
  | guardRight
  | jabLeft
  | jabRight
  | hookLeft
  | hookRight
  | uppercutLeft
  | uppercutRight
  | duckLeft
  | duckRight
  | blockBody
deriving DecidableEq, Repr

/-- A hand's grid cell: `{ row, col }` as produced by `onResults`. -/
structure GridPos where
  row : ℤ
  col : ℤ
deriving DecidableEq, Repr

/-- Glove pose data attached to each stance by the renderer
(`part_000`, the `stances` table). Only the fields relevant here. -/
structure StancePose where
  name : String
  leftGloveX : ℤ
  leftGloveY : ℤ
  rightGloveX : ℤ
  rightGloveY : ℤ
deriving DecidableEq, Repr

/-- The renderer's `stances` table (`part_000`): every `Stance` value,
including both uppercuts, has a pose entry. -/
def stances : Stance → StancePose
  | .idle => ⟨"Idle", -50, 20, 50, 20⟩
  | .guard => ⟨"Guard Up", -35, -60, 35, -60⟩
  | .guardLeft => ⟨"Guard Left", -35, -60, 35, -60⟩
  | .guardRight => ⟨"Guard Right", -35, -60, 35, -60⟩
  | .jabLeft => ⟨"Left Jab", -20, -100, 40, -50⟩
  | .jabRight => ⟨"Right Jab", -40, -50, 20, -100⟩
  | .hookLeft => ⟨"Left Hook", -80, -40, 35, -55⟩
  | .hookRight => ⟨"Right Hook", -35, -55, 80, -40⟩
  | .uppercutLeft => ⟨"Left Uppercut", -25, -20, 40, -50⟩
  | .uppercutRight => ⟨"Right Uppercut", -40, -50, 25, -20⟩
  | .duckLeft => ⟨"Duck Left", -45, -30, 30, -30⟩
  | .duckRight => ⟨"Duck Right", -30, -30, 45, -30⟩
  | .blockBody => ⟨"Block Body", -30, 10, 30, 10⟩

/-- From `camera.js`: grid cell of a hand position.  `GRID_ROWS = 3`; the column is
mirrored (`handX < 0.5 ? 1 : 0`), the row is `Math.floor(handY * GRID_ROWS)`
clamped to `[0, GRID_ROWS - 1]`. -/
def gridPosCam (x y : ℚ) : GridPos :=
  { col := if x < 1/2 then 1 else 0
    row := max 0 (min (3 - 1) ⌊y * 3⌋) }

/-- From `part_001`, first generation: same computation with `GRID_ROWS = 4`. -/
def gridPos44 (x y : ℚ) : GridPos :=
  { col := if x < 1/2 then 1 else 0
    row := max 0 (min (4 - 1) ⌊y * 4⌋) }

/-- From `part_001`, final generation: same computation with `GRID_ROWS = 6`
(the declared internal grid is 4×6, but the column computation is unchanged). -/
def gridPosFine (x y : ℚ) : GridPos :=
  { col := if x < 1/2 then 1 else 0
    row := max 0 (min (6 - 1) ⌊y * 6⌋) }

/-- Function `detectStance` of `camera.js` (3 rows × 2 columns), as a pure function of
the two optional grid positions. -/
def detectStanceCam (lg rg : Option GridPos) : Stance :=
  match lg, rg with
  | none, none => .idle
  | some lg, some rg =>
    if lg.row = 0 ∧ rg.row = 0 then
      if lg.col = 0 ∧ rg.col = 0 then .guardLeft
      else if lg.col = 1 ∧ rg.col = 1 then .guardRight
      else .guard
    else if lg.row = 2 ∧ rg.row = 2 then
      if lg.col = 0 ∨ rg.col = 0 then .duckLeft else .duckRight
    else if lg.row = 1 ∧ rg.row = 1 then .blockBody
    else if lg.row = 0 ∧ 1 ≤ rg.row then .jabLeft
    else if rg.row = 0 ∧ 1 ≤ lg.row then .jabRight
    else .guard
  | some lg, none =>
    if lg.row = 0 then .jabLeft
    else if lg.row = 1 then
      if lg.col = 0 then .hookLeft else .blockBody
    else .duckLeft
  | none, some rg =>
    if rg.row = 0 then .jabRight
    else if rg.row = 1 then
      if rg.col = 1 then .hookRight else .blockBody
    else .duckRight

/-- Function `detectStance` of `part_001`, first generation ("updated for 4x4 grid"):
rows 0-1 top, row 2 middle, row 3 bottom; cols 0-1 left side, 2-3 right side. -/
def detectStance44 (lg rg : Option GridPos) : Stance :=
  match lg, rg with
  | none, none => .idle
  | some lg, some rg =>
    if lg.row ≤ 1 ∧ rg.row ≤ 1 then
      if lg.col ≤ 1 ∧ rg.col ≤ 1 then .guardLeft
      else if 2 ≤ lg.col ∧ 2 ≤ rg.col then .guardRight
      else .guard
    else if 3 ≤ lg.row ∧ 3 ≤ rg.row then
      if lg.col ≤ 1 then .duckLeft else .duckRight
    else if lg.row = 2 ∧ rg.row = 2 then .blockBody
    else if lg.row ≤ 1 ∧ 2 ≤ rg.row then .jabLeft
    else if rg.row ≤ 1 ∧ 2 ≤ lg.row then .jabRight
    else .guard
  | some lg, none =>
    if lg.row ≤ 1 then .jabLeft
    else if lg.row = 2 then
      if lg.col ≤ 1 then .hookLeft else .blockBody
    else .duckLeft
  | none, some rg =>
    if rg.row ≤ 1 then .jabRight
    else if rg.row = 2 then
      if 2 ≤ rg.col then .hookRight else .blockBody
    else .duckRight

/-- Computes `Math.floor(row / 2)` on an integer row index. -/
def getLogicalRow (row : ℤ) : ℤ := Int.fdiv row 2

/-- Computes `Math.floor(col / 2)` on an integer column index. -/
def getLogicalCol (col : ℤ) : ℤ := Int.fdiv col 2

/-- Function `detectStance` of `part_001`, final generation: collapses the fine grid
to logical zones by integer division and then classifies. -/
def detectStanceFine (lg rg : Option GridPos) : Stance :=
  match lg, rg with
  | none, none => .idle
  | some lg, some rg =>
    if getLogicalRow lg.row = 0 ∧ getLogicalRow rg.row = 0 then
      if getLogicalCol lg.col = 0 ∧ getLogicalCol rg.col = 0 then .guardLeft
      else if getLogicalCol lg.col = 1 ∧ getLogicalCol rg.col = 1 then .guardRight
      else .guard
    else if getLogicalRow lg.row = 2 ∧ getLogicalRow rg.row = 2 then
      if getLogicalCol lg.col = 0 then .duckLeft else .duckRight
    else if getLogicalRow lg.row = 1 ∧ getLogicalRow rg.row = 1 then .blockBody
    else if getLogicalRow lg.row = 0 ∧ 1 ≤ getLogicalRow rg.row then .jabLeft
    else if getLogicalRow rg.row = 0 ∧ 1 ≤ getLogicalRow lg.row then .jabRight
    else .guard
  | some lg, none =>
    if getLogicalRow lg.row = 0 then .jabLeft
    else if getLogicalRow lg.row = 1 then
      if getLogicalCol lg.col = 0 then .hookLeft else .blockBody
    else .duckLeft
  | none, some rg =>
    if getLogicalRow rg.row = 0 then .jabRight
    else if getLogicalRow rg.row = 1 then
      if getLogicalCol rg.col = 1 then .hookRight else .blockBody
    else .duckRight

/-- Stance computed by `camera.js` from optional normalized hand positions. -/
def stanceCamPos (l r : Option (ℚ × ℚ)) : Stance :=
  detectStanceCam (l.map fun p => gridPosCam p.1 p.2) (r.map fun p => gridPosCam p.1 p.2)

/-- Stance computed by the 4×4-grid generation from optional positions. -/
def stance44Pos (l r : Option (ℚ × ℚ)) : Stance :=
  detectStance44 (l.map fun p => gridPos44 p.1 p.2) (r.map fun p => gridPos44 p.1 p.2)

/-- Stance computed by the fine-grid generation from optional positions. -/
def stanceFinePos (l r : Option (ℚ × ℚ)) : Stance :=
  detectStanceFine (l.map fun p => gridPosFine p.1 p.2) (r.map fun p => gridPosFine p.1 p.2)

end Grid

namespace DepthSensor

/-- Constant `REFERENCE_HAND_SIZE` from `depthSensor.js`. -/
def REFERENCE_HAND_SIZE : ℝ := 0.15

/-- Constant `DEPTH_SMOOTHING` from `depthSensor.js`. -/
def DEPTH_SMOOTHING : ℝ := 0.7

/-- Constant `VELOCITY_THRESHOLD` from `depthSensor.js`. -/
def VELOCITY_THRESHOLD : ℝ := 0.006

/-- Constant `PUNCH_COOLDOWN` (milliseconds) from `depthSensor.js`. -/
def PUNCH_COOLDOWN : ℝ := 80

/-- One MediaPipe landmark.  The `z` coordinate may be absent; the source
reads it as `p.z || 0`, modelled by `zOr0`. -/
structure Landmark where
  x : ℝ
  y : ℝ
  z : Option ℝ

/-- Reads `p.z || 0`. -/
def zOr0 (p : Landmark) : ℝ := p.z.getD 0

/-- A 3-component position object. -/
structure Pos3 where
  x : ℝ
  y : ℝ
  z : ℝ

/-- Function `calculateHandScale`: distance from wrist (0) to middle-finger MCP (9).
Returns `none` when either landmark is missing (the JavaScript code would
throw on `undefined.x`). -/
noncomputable def calculateHandScale (landmarks : List Landmark) : Option ℝ :=
  match landmarks[0]?, landmarks[9]? with
  | some wrist, some middleMCP =>
    some (Real.sqrt ((middleMCP.x - wrist.x) * (middleMCP.x - wrist.x) +
      (middleMCP.y - wrist.y) * (middleMCP.y - wrist.y) +
      (zOr0 middleMCP - zOr0 wrist) * (zOr0 middleMCP - zOr0 wrist)))
  | _, _ => none

/-- Function `calculatePalmDepth`: mean z over palm landmarks 0, 1, 5, 9, 13, 17. -/
noncomputable def calculatePalmDepth (landmarks : List Landmark) : Option ℝ :=
  match landmarks[0]?, landmarks[1]?, landmarks[5]?, landmarks[9]?,
      landmarks[13]?, landmarks[17]? with
  | some p0, some p1, some p5, some p9, some p13, some p17 =>
    some ((zOr0 p0 + zOr0 p1 + zOr0 p5 + zOr0 p9 + zOr0 p13 + zOr0 p17) / 6)
  | _, _, _, _, _, _ => none

/-- Function `calculateHandCenter`: average of wrist (0), index MCP (5), pinky MCP (17). -/
noncomputable def calculateHandCenter (landmarks : List Landmark) : Option Pos3 :=
  match landmarks[0]?, landmarks[5]?, landmarks[17]? with
  | some wrist, some indexMCP, some pinkyMCP =>
    some { x := (wrist.x + indexMCP.x + pinkyMCP.x) / 3
           y := (wrist.y + indexMCP.y + pinkyMCP.y) / 3
           z := (zOr0 wrist + zOr0 indexMCP + zOr0 pinkyMCP) / 3 }
  | _, _, _ => none

/-- One finger of `detectFist`: the fingertip counts as curled when its 2D
distance to the wrist is below 1.3 times the MCP's distance to the wrist. -/
noncomputable def fingerCurled (wrist tip mcp : Landmark) : Bool :=
  let tipToWrist := Real.sqrt ((tip.x - wrist.x) ^ 2 + (tip.y - wrist.y) ^ 2)
  let mcpToWrist := Real.sqrt ((mcp.x - wrist.x) ^ 2 + (mcp.y - wrist.y) ^ 2)
  decide (tipToWrist < mcpToWrist * 1.3)

/-- Function `detectFist`: tips 8, 12, 16, 20 against MCPs 5, 9, 13, 17; a fist is
3 or more curled fingers. -/
noncomputable def detectFist (landmarks : List Landmark) : Option Bool :=
  match landmarks[0]?, landmarks[8]?, landmarks[5]?, landmarks[12]?,
      landmarks[9]?, landmarks[16]?, landmarks[13]?, landmarks[20]?,
      landmarks[17]? with
  | some wrist, some t1, some m1, some t2, some m2, some t3, some m3,
      some t4, some m4 =>
    some (decide (3 ≤ (if fingerCurled wrist t1 m1 then 1 else 0) +
      (if fingerCurled wrist t2 m2 then 1 else 0) +
      (if fingerCurled wrist t3 m3 then 1 else 0) +
      ((if fingerCurled wrist t4 m4 then 1 else 0) : ℕ)))
  | _, _, _, _, _, _, _, _, _ => none

/-- The per-hand tracker state (`createHandState` in `depthSensor.js`). -/
structure HandState where
  depth : ℝ
  smoothedDepth : ℝ
  rawPalmZ : ℝ
  scaleDepth : ℝ
  rawCombinedDepth : ℝ
  depthHistory : List ℝ
  velocityHistory : List ℝ
  historyMaxLength : ℕ
  velocityHistoryMaxLength : ℕ
  velocity : ℝ
  scale : ℝ
  isPunching : Bool
  punchStartTime : ℝ
  lastPunchTime : ℝ
  punchPower : ℝ
  position : Pos3
  isFist : Bool

/-- Function `createHandState`: the fresh per-hand state. -/
noncomputable def createHandState : HandState :=
  { depth := 0
    smoothedDepth := 0
    rawPalmZ := 0
    scaleDepth := 0
    rawCombinedDepth := 0
    depthHistory := []
    velocityHistory := []
    historyMaxLength := 5
    velocityHistoryMaxLength := 50
    velocity := 0
    scale := REFERENCE_HAND_SIZE
    isPunching := false
    punchStartTime := 0
    lastPunchTime := 0
    punchPower := 0
    position := { x := 0, y := 0, z := 0 }
    isFist := false }

/-- Payload of the `onPunchDetected` callback. -/
structure PunchEvent where
  hand : String
  power : ℝ
  position : Pos3
  velocity : ℝ
  isFist : Bool

/-- Function `processHand`: one hand's per-frame update.  `now` is the value of
`Date.now()` at the start of the call.  Returns the updated state and the
punch event fired during the call, if any; `none` models a thrown
`TypeError` on a malformed frame. -/
noncomputable def processHand (landmarks : List Landmark) (handState : HandState)
    (handName : String) (now : ℝ) : Option (HandState × Option PunchEvent) :=
  match calculatePalmDepth landmarks, calculateHandScale landmarks,
      calculateHandCenter landmarks, detectFist landmarks with
  | some palmDepth, some handScale, some position, some fist =>
    let scaleDepth := -(handScale - REFERENCE_HAND_SIZE) / REFERENCE_HAND_SIZE
    let rawDepth := (palmDepth * 0.6 + scaleDepth * 0.4) * 1.5
    let smoothedDepth :=
      handState.smoothedDepth * (1 - DEPTH_SMOOTHING) + rawDepth * DEPTH_SMOOTHING
    let pushedDepth := handState.depthHistory ++ [smoothedDepth]
    let depthHistory :=
      if handState.historyMaxLength < pushedDepth.length then pushedDepth.tail
      else pushedDepth
    let velocity :=
      if 2 ≤ depthHistory.length then
        depthHistory.getD (depthHistory.length - 1) 0 -
          depthHistory.getD (depthHistory.length - 2) 0
      else handState.velocity
    let pushedVel := handState.velocityHistory ++ [velocity]
    let velocityHistory :=
      if handState.velocityHistoryMaxLength < pushedVel.length then pushedVel.tail
      else pushedVel
    let timeSinceLastPunch := now - handState.lastPunchTime
    let onset := handState.isPunching = false ∧ velocity < -VELOCITY_THRESHOLD ∧
      PUNCH_COOLDOWN < timeSinceLastPunch
    let punchPower :=
      if onset then min 1 (|velocity| / (VELOCITY_THRESHOLD * 2))
      else handState.punchPower
    let punchStartTime := if onset then now else handState.punchStartTime
    let isPunching1 := if onset then true else handState.isPunching
    let event : Option PunchEvent :=
      if onset then
        some { hand := handName, power := punchPower, position := position
               velocity := velocity, isFist := fist }
      else none
    let endPunch := isPunching1 = true ∧ -VELOCITY_THRESHOLD * 0.3 < velocity
    let isPunching2 := if endPunch then false else isPunching1
    let lastPunchTime := if endPunch then now else handState.lastPunchTime
    some ({ depth := smoothedDepth
            smoothedDepth := smoothedDepth
            rawPalmZ := palmDepth
            scaleDepth := scaleDepth
            rawCombinedDepth := rawDepth
            depthHistory := depthHistory
            velocityHistory := velocityHistory
            historyMaxLength := handState.historyMaxLength
            velocityHistoryMaxLength := handState.velocityHistoryMaxLength
            velocity := velocity
            scale := handScale
            isPunching := isPunching2
            punchStartTime := punchStartTime
            lastPunchTime := lastPunchTime
            punchPower := punchPower
            position := position
            isFist := fist }, event)
  | _, _, _, _ => none

/-- The straight-line core of `processHand` once the four landmark
computations have succeeded.  Textually identical to the body of
`processHand`; `processHand` is proved equal to it below. -/
noncomputable def processHandPure (palmDepth handScale : ℝ) (position : Pos3)
    (fist : Bool) (handState : HandState) (handName : String) (now : ℝ) :
    HandState × Option PunchEvent :=
  let scaleDepth := -(handScale - REFERENCE_HAND_SIZE) / REFERENCE_HAND_SIZE
  let rawDepth := (palmDepth * 0.6 + scaleDepth * 0.4) * 1.5
  let smoothedDepth :=
    handState.smoothedDepth * (1 - DEPTH_SMOOTHING) + rawDepth * DEPTH_SMOOTHING
  let pushedDepth := handState.depthHistory ++ [smoothedDepth]
  let depthHistory :=
    if handState.historyMaxLength < pushedDepth.length then pushedDepth.tail
    else pushedDepth
  let velocity :=
    if 2 ≤ depthHistory.length then
      depthHistory.getD (depthHistory.length - 1) 0 -
        depthHistory.getD (depthHistory.length - 2) 0
    else handState.velocity
  let pushedVel := handState.velocityHistory ++ [velocity]
  let velocityHistory :=
    if handState.velocityHistoryMaxLength < pushedVel.length then pushedVel.tail
    else pushedVel
  let timeSinceLastPunch := now - handState.lastPunchTime
  let onset := handState.isPunching = false ∧ velocity < -VELOCITY_THRESHOLD ∧
    PUNCH_COOLDOWN < timeSinceLastPunch
  let punchPower :=
    if onset then min 1 (|velocity| / (VELOCITY_THRESHOLD * 2))
    else handState.punchPower
  let punchStartTime := if onset then now else handState.punchStartTime
  let isPunching1 := if onset then true else handState.isPunching
  let event : Option PunchEvent :=
    if onset then
      some { hand := handName, power := punchPower, position := position
             velocity := velocity, isFist := fist }
    else none
  let endPunch := isPunching1 = true ∧ -VELOCITY_THRESHOLD * 0.3 < velocity
  let isPunching2 := if endPunch then false else isPunching1
  let lastPunchTime := if endPunch then now else handState.lastPunchTime
  ({ depth := smoothedDepth
     smoothedDepth := smoothedDepth
     rawPalmZ := palmDepth
     scaleDepth := scaleDepth
     rawCombinedDepth := rawDepth
     depthHistory := depthHistory
     velocityHistory := velocityHistory
     historyMaxLength := handState.historyMaxLength
     velocityHistoryMaxLength := handState.velocityHistoryMaxLength
     velocity := velocity
     scale := handScale
     isPunching := isPunching2
     punchStartTime := punchStartTime
     lastPunchTime := lastPunchTime
     punchPower := punchPower
     position := position
     isFist := fist }, event)

/-- One entry of `results.multiHandedness`. -/
structure Handedness where
  label : String

/-- The MediaPipe results object passed to `update`.  `none` models a
missing/false field. -/
structure Results where
  multiHandLandmarks : Option (List (List Landmark))
  multiHandedness : Option (List Handedness)

/-- The module-level tracker state (`leftHandState` / `rightHandState`). -/
structure Tracker where
  leftHandState : HandState
  rightHandState : HandState

/-- Fresh tracker (module initialization / `reset`). -/
noncomputable def initialTracker : Tracker :=
  { leftHandState := createHandState, rightHandState := createHandState }

/-- The hand-processing loop inside `update`: hand `i` is paired with
`multiHandedness[i]`; a hand whose handedness entry is missing crashes
(`undefined.label`).  A label of `"Right"` is the player's left hand
(mirrored camera).  Returns the updated tracker, the two detected flags, and
the punch events fired for each side, in order. -/
noncomputable def updateLoop : List (List Landmark) → List Handedness → Tracker → ℝ →
    Option (Tracker × Bool × Bool × List PunchEvent × List PunchEvent)
  | [], _, tr, _ => some (tr, false, false, [], [])
  | _ :: _, [], _, _ => none
  | lm :: rest, h :: hrest, tr, now =>
    if h.label = "Right" then
      match processHand lm tr.leftHandState "left" now with
      | none => none
      | some (l2, ev) =>
        match updateLoop rest hrest { tr with leftHandState := l2 } now with
        | none => none
        | some (tr2, _, rDet, levs, revs) =>
          some (tr2, true, rDet, ev.toList ++ levs, revs)
    else
      match processHand lm tr.rightHandState "right" now with
      | none => none
      | some (r2, ev) =>
        match updateLoop rest hrest { tr with rightHandState := r2 } now with
        | none => none
        | some (tr2, lDet, _, levs, revs) =>
          some (tr2, lDet, true, levs, ev.toList ++ revs)

/-- The per-tick return value of `update`: the exposed snapshots (null when
the side was not detected), plus the punch events fired during the tick. -/
structure UpdateRet where
  left : Option HandState
  right : Option HandState
  leftEvents : List PunchEvent
  rightEvents : List PunchEvent

/-- Function `update`: process all hands of this tick's results, then decay the sides
that were not detected (`depth *= 0.9`, `velocity *= 0.8`,
`isPunching = false`). -/
noncomputable def update (results : Results) (tr : Tracker) (now : ℝ) :
    Option (Tracker × UpdateRet) :=
  match
    (match results.multiHandLandmarks, results.multiHandedness with
     | some mhl, some mh => updateLoop mhl mh tr now
     | _, _ => some (tr, false, false, [], [])) with
  | none => none
  | some (tr1, leftDetected, rightDetected, levs, revs) =>
    let left2 :=
      if leftDetected then tr1.leftHandState
      else { tr1.leftHandState with
              depth := tr1.leftHandState.depth * 0.9
              velocity := tr1.leftHandState.velocity * 0.8
              isPunching := false }
    let right2 :=
      if rightDetected then tr1.rightHandState
      else { tr1.rightHandState with
              depth := tr1.rightHandState.depth * 0.9
              velocity := tr1.rightHandState.velocity * 0.8
              isPunching := false }
    some ({ leftHandState := left2, rightHandState := right2 },
      { left := if leftDetected then some left2 else none
        right := if rightDetected then some right2 else none
        leftEvents := levs
        rightEvents := revs })

/-- Run a sequence of ticks `(now, results)` from a tracker state, logging
each tick's time and return value.  `none` as soon as a tick crashes. -/
noncomputable def runTicks (tr : Tracker) :
    List (ℝ × Results) → Option (Tracker × List (ℝ × UpdateRet))
  | [] => some (tr, [])
  | (now, res) :: rest =>
    match update res tr now with
    | none => none
    | some (tr1, out) =>
      match runTicks tr1 rest with
      | none => none
      | some (tr2, logs) => some (tr2, (now, out) :: logs)

/-- Times of the left-side punch events of a run, in order. -/
def leftPunchTimes (logs : List (ℝ × UpdateRet)) : List ℝ :=
  logs.flatMap fun lg => lg.2.leftEvents.map fun _ => lg.1

/-- Times of the right-side punch events of a run, in order. -/
def rightPunchTimes (logs : List (ℝ × UpdateRet)) : List ℝ :=
  logs.flatMap fun lg => lg.2.rightEvents.map fun _ => lg.1

end DepthSensor

namespace DepthSensor

/-- A synthetic frame: 21 identical landmarks at the origin with depth `c`.
All pairwise distances vanish, so the hand scale is 0 and the palm depth
is `c`. -/
noncomputable def constFrame (c : ℝ) : List Landmark :=
  List.replicate 21 { x := 0, y := 0, z := some c }

/-- Results carrying one hand labelled `"Right"` (the player's left hand). -/
noncomputable def resLeft (f : List Landmark) : Results :=
  { multiHandLandmarks := some [f], multiHandedness := some [{ label := "Right" }] }

/-- Results with both arrays present but empty: no hand detected. -/
def resEmpty : Results :=
  { multiHandLandmarks := some [], multiHandedness := some [] }

/-- Left-hand state after one tick of `constFrame 0` from the fresh state. -/
noncomputable def tick1State : HandState :=
  { depth := 0.42, smoothedDepth := 0.42, rawPalmZ := 0, scaleDepth := 1
    rawCombinedDepth := 0.6, depthHistory := [0.42], velocityHistory := [0]
    historyMaxLength := 5, velocityHistoryMaxLength := 50, velocity := 0
    scale := 0, isPunching := false, punchStartTime := 0, lastPunchTime := 0
    punchPower := 0, position := { x := 0, y := 0, z := 0 }, isFist := false }

/-- Left-hand state after a second tick of `constFrame (-10)` at time 1010:
a punch fires. -/
noncomputable def tick2State : HandState :=
  { depth := -5.754, smoothedDepth := -5.754, rawPalmZ := -10, scaleDepth := 1
    rawCombinedDepth := -8.4, depthHistory := [0.42, -5.754]
    velocityHistory := [0, -6.174]
    historyMaxLength := 5, velocityHistoryMaxLength := 50, velocity := -6.174
    scale := 0, isPunching := true, punchStartTime := 1010, lastPunchTime := 0
    punchPower := 1, position := { x := 0, y := 0, z := -10 }, isFist := false }

/-- The punch event fired on the second tick. -/
noncomputable def punchEvent2 : PunchEvent :=
  { hand := "left", power := 1, position := { x := 0, y := 0, z := -10 }
    velocity := -6.174, isFist := false }

/-- Left-hand state after a third tick with no hand detected: depth and
velocity decay, `isPunching` is cleared, everything else is untouched. -/
noncomputable def tick3State : HandState :=
  { depth := -5.1786, smoothedDepth := -5.754, rawPalmZ := -10, scaleDepth := 1
    rawCombinedDepth := -8.4, depthHistory := [0.42, -5.754]
    velocityHistory := [0, -6.174]
    historyMaxLength := 5, velocityHistoryMaxLength := 50, velocity := -4.9392
    scale := 0, isPunching := false, punchStartTime := 1010, lastPunchTime := 0
    punchPower := 1, position := { x := 0, y := 0, z := -10 }, isFist := false }

/-- Left-hand state after a fourth tick of `constFrame (-30)` at time 1030:
a second punch fires only 20 ms after the first because the cooldown clock
(`lastPunchTime`) was never started. -/
noncomputable def tick4State : HandState :=
  { depth := -20.2062, smoothedDepth := -20.2062, rawPalmZ := -30
    scaleDepth := 1, rawCombinedDepth := -26.4
    depthHistory := [0.42, -5.754, -20.2062]
    velocityHistory := [0, -6.174, -14.4522]
    historyMaxLength := 5, velocityHistoryMaxLength := 50, velocity := -14.4522
    scale := 0, isPunching := true, punchStartTime := 1030, lastPunchTime := 0
    punchPower := 1, position := { x := 0, y := 0, z := -30 }, isFist := false }

/-- The punch event fired on the fourth tick. -/
noncomputable def punchEvent4 : PunchEvent :=
  { hand := "left", power := 1, position := { x := 0, y := 0, z := -30 }
    velocity := -14.4522, isFist := false }

/-- The four-tick run violating the cooldown: punch at 1010, hand lost at
1020 (ending the punch without starting the cooldown clock), punch again
at 1030. -/
noncomputable def cooldownTicks : List (ℝ × Results) :=
  [(1000, resLeft (constFrame 0)), (1010, resLeft (constFrame (-10))),
    (1020, resEmpty), (1030, resLeft (constFrame (-30)))]

/-- The three-tick prefix: after the decay tick the stored velocity no
longer equals the difference of the last two history entries. -/
noncomputable def velocityTicks : List (ℝ × Results) :=
  [(1000, resLeft (constFrame 0)), (1010, resLeft (constFrame (-10))),
    (1020, resEmpty)]

/-- A single detected tick (used as a witness run). -/
noncomputable def oneTick : List (ℝ × Results) :=
  [(1000, resLeft (constFrame 0))]

/-- A state whose depth history is already at capacity. -/
noncomputable def fullHistState : HandState :=
  { createHandState with depthHistory := [1, 2, 3, 4, 5] }

/-- Result of processing `constFrame 0` at time 0 from `fullHistState`:
the oldest history entry (1) is evicted. -/
noncomputable def fullHistNext : HandState :=
  { depth := 0.42, smoothedDepth := 0.42, rawPalmZ := 0, scaleDepth := 1
    rawCombinedDepth := 0.6, depthHistory := [2, 3, 4, 5, 0.42]
    velocityHistory := [-4.58]
    historyMaxLength := 5, velocityHistoryMaxLength := 50, velocity := -4.58
    scale := 0, isPunching := false, punchStartTime := 0, lastPunchTime := 0
    punchPower := 0, position := { x := 0, y := 0, z := 0 }, isFist := false }

/-- Normalize one landmark: replace a missing z by an explicit 0
(what the code's `p.z || 0` reads amounts to). -/
def normZ (p : Landmark) : Landmark :=
  { x := p.x, y := p.y, z := some (zOr0 p) }

/-- Size/shape invariant of a hand state: histories within their fixed
capacities, and the capacity fields at their initial values. -/
def sizeInv (s : HandState) : Prop :=
  s.depthHistory.length ≤ 5 ∧ s.velocityHistory.length ≤ 50 ∧
    s.historyMaxLength = 5 ∧ s.velocityHistoryMaxLength = 50

/-- Velocity invariant: while fewer than two depth samples exist the stored
velocity is still 0. -/
def velInv (s : HandState) : Prop :=
  s.depthHistory.length < 2 → s.velocity = 0

/-- Punch-clock invariant at time bound `t`: the cooldown clock never runs
ahead of the clock. -/
def clockInv (s : HandState) (t : ℝ) : Prop := s.lastPunchTime ≤ t

/-- After a punch event in a tick at time `t`, the state either is still
punching or has its cooldown clock set to `t`; both block a further onset
within the same tick. -/
def afterPunch (s : HandState) (t : ℝ) : Prop :=
  s.isPunching = true ∨ s.lastPunchTime = t

/-- Reference point for the next admissible punch-onset time: while punching
the conservative bound is the current time, otherwise the cooldown clock. -/
noncomputable def punchBase (s : HandState) (t : ℝ) : ℝ :=
  if s.isPunching = true then t else s.lastPunchTime

end DepthSensor

namespace Snapshot

/-!
Heap model for claim C4.  JavaScript objects and arrays are references; the
spread `{...state}` in `getHandStates` copies field values, so array- and
object-valued fields of the copy alias the originals.  `HandStateObj` mirrors
the hand state with its three non-scalar fields (`depthHistory`,
`velocityHistory`, `position`) represented as indices into a `Store`.
-/

/-- A plain 3-component position object held in the store. -/
structure Pos3Q where
  x : ℚ
  y : ℚ
  z : ℚ
deriving DecidableEq, Repr

/-- The hand-state object with reference-valued fields as store indices. -/
structure HandStateObj where
  depth : ℚ
  smoothedDepth : ℚ
  rawPalmZ : ℚ
  scaleDepth : ℚ
  rawCombinedDepth : ℚ
  velocity : ℚ
  scale : ℚ
  punchStartTime : ℚ
  lastPunchTime : ℚ
  punchPower : ℚ
  historyMaxLength : ℕ
  velocityHistoryMaxLength : ℕ
  isPunching : Bool
  isFist : Bool
  depthHistory : ℕ
  velocityHistory : ℕ
  position : ℕ
deriving DecidableEq, Repr

/-- The heap: numeric arrays and position objects. -/
structure Store where
  arrays : List (List ℚ)
  objs : List Pos3Q
deriving DecidableEq, Repr

/-- The spread `{...s}`: copies every field value.  Reference-valued fields
are copied as references, so on this representation it is the identity. -/
def spreadCopy (s : HandStateObj) : HandStateObj := s

/-- Function `getHandStates`: returns spread copies of the two internal states. -/
def getHandStates (left right : HandStateObj) : HandStateObj × HandStateObj :=
  (spreadCopy left, spreadCopy right)

/-- Mutation through an array reference: push `v` onto the array at index
`r` of the store (e.g. `snapshot.depthHistory.push(v)`). -/
def pushAt (st : Store) (r : ℕ) (v : ℚ) : Store :=
  { st with arrays := st.arrays.set r (st.arrays.getD r [] ++ [v]) }

/-- Dereference an array. -/
def readArray (st : Store) (r : ℕ) : Option (List ℚ) := st.arrays[r]?

/-- The depth history the tracker itself observes through its own internal
state's reference. -/
def internalDepthHistory (st : Store) (s : HandStateObj) : Option (List ℚ) :=
  readArray st s.depthHistory

/-- Sample heap: depth history `[1, 2]` at index 0, velocity history at 1. -/
def sampleStore : Store :=
  { arrays := [[1, 2], []], objs := [{ x := 0, y := 0, z := 0 }] }

/-- Sample internal hand state pointing into `sampleStore`. -/
def sampleState : HandStateObj :=
  { depth := 0, smoothedDepth := 0, rawPalmZ := 0, scaleDepth := 0
    rawCombinedDepth := 0, velocity := 0, scale := 0, punchStartTime := 0
    lastPunchTime := 0, punchPower := 0, historyMaxLength := 5
    velocityHistoryMaxLength := 50, isPunching := false, isFist := false
    depthHistory := 0, velocityHistory := 1, position := 0 }

end Snapshot

namespace Grid

/-- The fine-grid pipeline's collapsed logical column is 0 for every input
position: the column is computed directly as 0/1 and then divided by 2. -/
theorem logicalCol_gridPosFine_eq_zero (x y : ℚ) :
    getLogicalCol (gridPosFine x y).col = 0 := by
  unfold gridPosFine getLogicalCol
  dsimp only
  split <;> decide

/-- The column of a 4×4-generation grid position is always 0 or 1. -/
theorem gridPos44_col_cases (x y : ℚ) :
    (gridPos44 x y).col = 0 ∨ (gridPos44 x y).col = 1 := by
  unfold gridPos44
  dsimp only
  split <;> simp

/-- Claim C2: the fine-grid classifier (internal grid collapsed by integer
division) does NOT agree with the direct 3×2 classifier.  For a single right
hand at normalized position (0.3, 0.5) the fine-grid pipeline yields
`blockBody` while the direct classifier yields `hookRight`; moreover the
collapsed logical column is 0 for every input position, so logical column 1
is unreachable. -/
theorem fineGrid_collapse_disagrees :
    stanceFinePos none (some (3/10, 1/2)) = Stance.blockBody ∧
    stanceCamPos none (some (3/10, 1/2)) = Stance.hookRight ∧
    ∀ x y : ℚ, getLogicalCol (gridPosFine x y).col = 0 := by
  have hfine : gridPosFine (3/10) (1/2) = ⟨3, 1⟩ := by
    simp only [gridPosFine]
    norm_num [GridPos.mk.injEq]
  have hcam : gridPosCam (3/10) (1/2) = ⟨1, 1⟩ := by
    simp only [gridPosCam]
    norm_num [GridPos.mk.injEq]
  refine ⟨?_, ?_, logicalCol_gridPosFine_eq_zero⟩
  · simp only [stanceFinePos, Option.map_some', Option.map_none', hfine]
    decide
  · simp only [stanceCamPos, Option.map_some', Option.map_none', hcam]
    decide

/-- Claim C6: with both hands in the bottom row, each generation of the
classifier returns `duckLeft` when a hand is in the left column and
`duckRight` when not.  For `camera.js` this holds for all zone pairs; for the
two `part_001` generations it holds for every pair of zones reachable from
input positions (where the computed column is always 0 or 1). -/
theorem bothBottom_duck :
    (∀ lg rg : GridPos, lg.row = 2 → rg.row = 2 →
      ((lg.col = 0 ∨ rg.col = 0) →
        detectStanceCam (some lg) (some rg) = Stance.duckLeft) ∧
      (¬(lg.col = 0 ∨ rg.col = 0) →
        detectStanceCam (some lg) (some rg) = Stance.duckRight)) ∧
    (∀ xl yl xr yr : ℚ,
      getLogicalRow (gridPosFine xl yl).row = 2 →
      getLogicalRow (gridPosFine xr yr).row = 2 →
      ((getLogicalCol (gridPosFine xl yl).col = 0 ∨
          getLogicalCol (gridPosFine xr yr).col = 0) →
        detectStanceFine (some (gridPosFine xl yl)) (some (gridPosFine xr yr)) =
          Stance.duckLeft) ∧
      (¬(getLogicalCol (gridPosFine xl yl).col = 0 ∨
          getLogicalCol (gridPosFine xr yr).col = 0) →
        detectStanceFine (some (gridPosFine xl yl)) (some (gridPosFine xr yr)) =
          Stance.duckRight)) ∧
    (∀ xl yl xr yr : ℚ,
      (gridPos44 xl yl).row = 3 → (gridPos44 xr yr).row = 3 →
      (((gridPos44 xl yl).col ≤ 1 ∨ (gridPos44 xr yr).col ≤ 1) →
        detectStance44 (some (gridPos44 xl yl)) (some (gridPos44 xr yr)) =
          Stance.duckLeft) ∧
      (¬((gridPos44 xl yl).col ≤ 1 ∨ (gridPos44 xr yr).col ≤ 1) →
        detectStance44 (some (gridPos44 xl yl)) (some (gridPos44 xr yr)) =
          Stance.duckRight)) := by
  refine ⟨?_, ?_, ?_⟩
  · intro lg rg hl hr
    constructor
    · intro hc
      simp only [detectStanceCam]
      rw [if_neg (by omega), if_pos ⟨hl, hr⟩, if_pos hc]
    · intro hc
      simp only [detectStanceCam]
      rw [if_neg (by omega), if_pos ⟨hl, hr⟩, if_neg hc]
  · intro xl yl xr yr hl hr
    have hcl := logicalCol_gridPosFine_eq_zero xl yl
    have hcr := logicalCol_gridPosFine_eq_zero xr yr
    constructor
    · intro _
      simp only [detectStanceFine]
      rw [if_neg (by omega), if_pos ⟨hl, hr⟩, if_pos hcl]
    · intro hc
      exact absurd (Or.inl hcl) hc
  · intro xl yl xr yr hl hr
    have hcl := gridPos44_col_cases xl yl
    constructor
    · intro _
      simp only [detectStance44]
      rw [if_neg (by omega), if_pos (by omega), if_pos (by omega)]
    · intro hc
      exact absurd (Or.inl (by omega)) hc

/-- Witness for C6: concrete bottom-row inputs for all three generations each
classify as `duckLeft`. -/
theorem bothBottom_duck_witness :
    detectStanceCam (some ⟨2, 1⟩) (some ⟨2, 0⟩) = Stance.duckLeft ∧
    detectStanceFine (some (gridPosFine (1/4) (9/10)))
      (some (gridPosFine (3/4) (19/20))) = Stance.duckLeft ∧
    detectStance44 (some (gridPos44 (1/4) (9/10)))
      (some (gridPos44 (3/4) (19/20))) = Stance.duckLeft := by
  have h1 : gridPosFine (1/4) (9/10) = ⟨5, 1⟩ := by
    simp only [gridPosFine]
    norm_num [GridPos.mk.injEq]
  have h2 : gridPosFine (3/4) (19/20) = ⟨5, 0⟩ := by
    simp only [gridPosFine]
    norm_num [GridPos.mk.injEq]
  have h3 : gridPos44 (1/4) (9/10) = ⟨3, 1⟩ := by
    simp only [gridPos44]
    norm_num [GridPos.mk.injEq]
  have h4 : gridPos44 (3/4) (19/20) = ⟨3, 0⟩ := by
    simp only [gridPos44]
    norm_num [GridPos.mk.injEq]
  refine ⟨(bothBottom_duck.1 ⟨2, 1⟩ ⟨2, 0⟩ rfl rfl).1 (Or.inr rfl), ?_, ?_⟩
  · exact (bothBottom_duck.2.1 (1/4) (9/10) (3/4) (19/20)
      (by rw [h1]; decide) (by rw [h2]; decide)).1 (Or.inl (by rw [h1]; decide))
  · exact (bothBottom_duck.2.2 (1/4) (9/10) (3/4) (19/20)
      (by rw [h3]) (by rw [h4])).1 (Or.inl (by rw [h3]))

/-- The `camera.js` classifier never yields an uppercut stance. -/
theorem detectStanceCam_no_uppercut (lg rg : Option GridPos) :
    detectStanceCam lg rg ≠ Stance.uppercutLeft ∧
    detectStanceCam lg rg ≠ Stance.uppercutRight := by
  rcases lg with _ | lg <;> rcases rg with _ | rg <;>
    simp only [detectStanceCam] <;> (repeat' split) <;> decide

/-- The fine-grid classifier never yields an uppercut stance. -/
theorem detectStanceFine_no_uppercut (lg rg : Option GridPos) :
    detectStanceFine lg rg ≠ Stance.uppercutLeft ∧
    detectStanceFine lg rg ≠ Stance.uppercutRight := by
  rcases lg with _ | lg <;> rcases rg with _ | rg <;>
    simp only [detectStanceFine] <;> (repeat' split) <;> decide

/-- Claim C9: for every combination of optional hand zones, neither the
`camera.js` classifier nor the fine-grid classifier ever returns
`uppercutLeft` or `uppercutRight`, although both values are entries of the
stance enumeration consumed by the renderer's pose table. -/
theorem classifier_never_uppercut :
    (∀ lg rg : Option GridPos,
      detectStanceCam lg rg ≠ Stance.uppercutLeft ∧
      detectStanceCam lg rg ≠ Stance.uppercutRight ∧
      detectStanceFine lg rg ≠ Stance.uppercutLeft ∧
      detectStanceFine lg rg ≠ Stance.uppercutRight) ∧
    (stances Stance.uppercutLeft).name = "Left Uppercut" ∧
    (stances Stance.uppercutRight).name = "Right Uppercut" := by
  refine ⟨fun lg rg => ⟨(detectStanceCam_no_uppercut lg rg).1,
    (detectStanceCam_no_uppercut lg rg).2,
    (detectStanceFine_no_uppercut lg rg).1,
    (detectStanceFine_no_uppercut lg rg).2⟩, rfl, rfl⟩

end Grid

namespace DepthSensor

/-- Element access on the synthetic frame. -/
theorem constFrame_getElem (c : ℝ) {i : ℕ} (h : i < 21) :
    (constFrame c)[i]? = some { x := 0, y := 0, z := some c } := by
  unfold constFrame
  exact List.getElem?_replicate_of_lt h

/-- Palm depth of the synthetic frame is `c`. -/
theorem calculatePalmDepth_const (c : ℝ) :
    calculatePalmDepth (constFrame c) = some c := by
  simp only [calculatePalmDepth, constFrame_getElem c (by norm_num : (0:ℕ) < 21),
    constFrame_getElem c (by norm_num : (1:ℕ) < 21),
    constFrame_getElem c (by norm_num : (5:ℕ) < 21),
    constFrame_getElem c (by norm_num : (9:ℕ) < 21),
    constFrame_getElem c (by norm_num : (13:ℕ) < 21),
    constFrame_getElem c (by norm_num : (17:ℕ) < 21)]
  simp only [zOr0, Option.getD_some, Option.some.injEq]
  ring

/-- Hand scale of the synthetic frame is 0. -/
theorem calculateHandScale_const (c : ℝ) :
    calculateHandScale (constFrame c) = some 0 := by
  simp only [calculateHandScale, constFrame_getElem c (by norm_num : (0:ℕ) < 21),
    constFrame_getElem c (by norm_num : (9:ℕ) < 21)]
  simp [zOr0]

/-- Hand center of the synthetic frame. -/
theorem calculateHandCenter_const (c : ℝ) :
    calculateHandCenter (constFrame c) = some { x := 0, y := 0, z := c } := by
  simp only [calculateHandCenter, constFrame_getElem c (by norm_num : (0:ℕ) < 21),
    constFrame_getElem c (by norm_num : (5:ℕ) < 21),
    constFrame_getElem c (by norm_num : (17:ℕ) < 21)]
  simp only [zOr0, Option.getD_some, Option.some.injEq, Pos3.mk.injEq]
  norm_num
  ring

/-- No finger of the synthetic frame counts as curled. -/
theorem fingerCurled_const (c : ℝ) :
    fingerCurled { x := 0, y := 0, z := some c } { x := 0, y := 0, z := some c }
      { x := 0, y := 0, z := some c } = false := by
  simp [fingerCurled]

/-- The synthetic frame is not a fist. -/
theorem detectFist_const (c : ℝ) : detectFist (constFrame c) = some false := by
  simp only [detectFist, constFrame_getElem c (by norm_num : (0:ℕ) < 21),
    constFrame_getElem c (by norm_num : (8:ℕ) < 21),
    constFrame_getElem c (by norm_num : (5:ℕ) < 21),
    constFrame_getElem c (by norm_num : (12:ℕ) < 21),
    constFrame_getElem c (by norm_num : (9:ℕ) < 21),
    constFrame_getElem c (by norm_num : (16:ℕ) < 21),
    constFrame_getElem c (by norm_num : (13:ℕ) < 21),
    constFrame_getElem c (by norm_num : (20:ℕ) < 21),
    constFrame_getElem c (by norm_num : (17:ℕ) < 21)]
  simp [fingerCurled_const]

end DepthSensor

namespace DepthSensor

/-- Function `processHand` agrees with its pure core once the four landmark
computations succeed, and crashes exactly when one of them does. -/
theorem processHand_eq (l : List Landmark) (s : HandState) (name : String)
    (now : ℝ) :
    processHand l s name now =
      match calculatePalmDepth l, calculateHandScale l, calculateHandCenter l,
          detectFist l with
      | some p, some sc, some pos, some f =>
        some (processHandPure p sc pos f s name now)
      | _, _, _, _ => none := rfl

end DepthSensor

namespace DepthSensor

theorem processHand_tick1 :
    processHand (constFrame 0) createHandState "left" 1000 = some (tick1State, none) := by
  simp only [processHand, calculatePalmDepth_const, calculateHandScale_const,
    calculateHandCenter_const, detectFist_const, createHandState]
  norm_num [REFERENCE_HAND_SIZE, DEPTH_SMOOTHING, VELOCITY_THRESHOLD, PUNCH_COOLDOWN,
    tick1State, HandState.mk.injEq, Prod.mk.injEq, Option.some.injEq, List.getD]

end DepthSensor

namespace DepthSensor

theorem processHand_tick2 :
    processHand (constFrame (-10)) tick1State "left" 1010 =
      some (tick2State, some punchEvent2) := by
  simp only [processHand, calculatePalmDepth_const, calculateHandScale_const,
    calculateHandCenter_const, detectFist_const, tick1State]
  norm_num [REFERENCE_HAND_SIZE, DEPTH_SMOOTHING, VELOCITY_THRESHOLD, PUNCH_COOLDOWN,
    tick2State, punchEvent2, HandState.mk.injEq, Prod.mk.injEq, Option.some.injEq,
    PunchEvent.mk.injEq, Pos3.mk.injEq, List.getD]
  rw [show |(3087:ℝ)/500| = 3087/500 from abs_of_nonneg (by norm_num)]
  norm_num

theorem processHand_tick4 :
    processHand (constFrame (-30)) tick3State "left" 1030 =
      some (tick4State, some punchEvent4) := by
  simp only [processHand, calculatePalmDepth_const, calculateHandScale_const,
    calculateHandCenter_const, detectFist_const, tick3State]
  norm_num [REFERENCE_HAND_SIZE, DEPTH_SMOOTHING, VELOCITY_THRESHOLD, PUNCH_COOLDOWN,
    tick4State, punchEvent4, HandState.mk.injEq, Prod.mk.injEq, Option.some.injEq,
    PunchEvent.mk.injEq, Pos3.mk.injEq, List.getD]
  rw [show |(72261:ℝ)/5000| = 72261/5000 from abs_of_nonneg (by norm_num)]
  norm_num

theorem processHand_fullHist :
    processHand (constFrame 0) fullHistState "left" 0 = some (fullHistNext, none) := by
  simp only [processHand, calculatePalmDepth_const, calculateHandScale_const,
    calculateHandCenter_const, detectFist_const, fullHistState, createHandState]
  norm_num [REFERENCE_HAND_SIZE, DEPTH_SMOOTHING, VELOCITY_THRESHOLD, PUNCH_COOLDOWN,
    fullHistNext, HandState.mk.injEq, Prod.mk.injEq, Option.some.injEq, List.getD]

end DepthSensor

namespace DepthSensor

/-- Evaluating `update` on results with one hand labelled `"Right"`: the left state is
processed, the right state decays. -/
theorem update_resLeft (f : List Landmark) (tr : Tracker) (now : ℝ)
    (l2 : HandState) (ev : Option PunchEvent)
    (h : processHand f tr.leftHandState "left" now = some (l2, ev)) :
    update (resLeft f) tr now = some
      ({ leftHandState := l2
         rightHandState := { tr.rightHandState with
           depth := tr.rightHandState.depth * 0.9
           velocity := tr.rightHandState.velocity * 0.8
           isPunching := false } },
       { left := some l2, right := none, leftEvents := ev.toList,
         rightEvents := [] }) := by
  simp [update, updateLoop, resLeft, h]

/-- Evaluating `update` on empty results: both sides decay and no snapshot is exposed. -/
theorem update_resEmpty (tr : Tracker) (now : ℝ) :
    update resEmpty tr now = some
      ({ leftHandState := { tr.leftHandState with
           depth := tr.leftHandState.depth * 0.9
           velocity := tr.leftHandState.velocity * 0.8
           isPunching := false }
         rightHandState := { tr.rightHandState with
           depth := tr.rightHandState.depth * 0.9
           velocity := tr.rightHandState.velocity * 0.8
           isPunching := false } },
       { left := none, right := none, leftEvents := [], rightEvents := [] }) := by
  simp [update, updateLoop, resEmpty]

theorem update_run1 :
    update (resLeft (constFrame 0)) initialTracker 1000 =
      some ({ leftHandState := tick1State, rightHandState := createHandState },
        { left := some tick1State, right := none, leftEvents := [],
          rightEvents := [] }) := by
  rw [update_resLeft (constFrame 0) initialTracker 1000 tick1State none
    (by simp only [initialTracker]; exact processHand_tick1)]
  simp only [initialTracker, Option.toList]
  norm_num [createHandState, HandState.mk.injEq]

theorem update_run2 :
    update (resLeft (constFrame (-10)))
        { leftHandState := tick1State, rightHandState := createHandState } 1010 =
      some ({ leftHandState := tick2State, rightHandState := createHandState },
        { left := some tick2State, right := none, leftEvents := [punchEvent2],
          rightEvents := [] }) := by
  rw [update_resLeft (constFrame (-10)) _ 1010 tick2State (some punchEvent2)
    processHand_tick2]
  norm_num [createHandState, HandState.mk.injEq]

theorem update_run3 :
    update resEmpty
        { leftHandState := tick2State, rightHandState := createHandState } 1020 =
      some ({ leftHandState := tick3State, rightHandState := createHandState },
        { left := none, right := none, leftEvents := [], rightEvents := [] }) := by
  rw [update_resEmpty]
  norm_num [createHandState, tick2State, tick3State, HandState.mk.injEq]

theorem update_run4 :
    update (resLeft (constFrame (-30)))
        { leftHandState := tick3State, rightHandState := createHandState } 1030 =
      some ({ leftHandState := tick4State, rightHandState := createHandState },
        { left := some tick4State, right := none, leftEvents := [punchEvent4],
          rightEvents := [] }) := by
  rw [update_resLeft (constFrame (-30)) _ 1030 tick4State (some punchEvent4)
    processHand_tick4]
  norm_num [createHandState, HandState.mk.injEq]

/-- Full evaluation of the four-tick cooldown-violating run. -/
theorem runTicks_cooldown :
    runTicks initialTracker cooldownTicks = some
      ({ leftHandState := tick4State, rightHandState := createHandState },
       [(1000, { left := some tick1State, right := none, leftEvents := [],
                 rightEvents := [] }),
        (1010, { left := some tick2State, right := none,
                 leftEvents := [punchEvent2], rightEvents := [] }),
        (1020, { left := none, right := none, leftEvents := [],
                 rightEvents := [] }),
        (1030, { left := some tick4State, right := none,
                 leftEvents := [punchEvent4], rightEvents := [] })]) := by
  simp only [cooldownTicks, runTicks, update_run1, update_run2, update_run3,
    update_run4]

end DepthSensor

namespace DepthSensor

theorem runTicks_oneTick :
    runTicks initialTracker oneTick = some
      ({ leftHandState := tick1State, rightHandState := createHandState },
       [(1000, { left := some tick1State, right := none, leftEvents := [],
                 rightEvents := [] })]) := by
  simp only [oneTick, runTicks, update_run1]

theorem runTicks_velocityTicks :
    runTicks initialTracker velocityTicks = some
      ({ leftHandState := tick3State, rightHandState := createHandState },
       [(1000, { left := some tick1State, right := none, leftEvents := [],
                 rightEvents := [] }),
        (1010, { left := some tick2State, right := none,
                 leftEvents := [punchEvent2], rightEvents := [] }),
        (1020, { left := none, right := none, leftEvents := [],
                 rightEvents := [] })]) := by
  simp only [velocityTicks, runTicks, update_run1, update_run2, update_run3]

/-- Claim C1 (counterexample): on the four-tick run `cooldownTicks` the left
side emits punch events at 1010 and 1030 — only 20 ms apart, well inside the
80 ms cooldown — because the tick at 1020 on which the hand is lost clears
`isPunching` without recording `lastPunchTime`. -/
theorem punch_cooldown_cex :
    (runTicks initialTracker cooldownTicks).map (fun r => leftPunchTimes r.2) =
      some [1010, 1030] ∧
    ¬ List.Chain' (fun a b : ℝ => a + PUNCH_COOLDOWN ≤ b) [1010, 1030] := by
  constructor
  · rw [runTicks_cooldown]
    simp [leftPunchTimes]
  · intro h
    rw [List.chain'_cons] at h
    have h1 := h.1
    rw [PUNCH_COOLDOWN] at h1
    norm_num at h1

/-- Claim C5 (counterexample): after the three-tick run `velocityTicks`
(detect, detect, hand lost) the left depth history is `[0.42, -5.754]` —
so the difference of its last two entries is `-6.174` — but the stored
velocity has been decayed to `-4.9392`. -/
theorem velocity_decay_cex :
    (runTicks initialTracker velocityTicks).map
        (fun r => (r.1.leftHandState.velocity, r.1.leftHandState.depthHistory)) =
      some (-4.9392, [0.42, -5.754]) ∧
    2 ≤ ([0.42, -5.754] : List ℝ).length ∧
    ¬ ((-4.9392 : ℝ) = ([0.42, -5.754] : List ℝ).getD (2 - 1) 0 -
        ([0.42, -5.754] : List ℝ).getD (2 - 2) 0) := by
  refine ⟨?_, by norm_num, ?_⟩
  · rw [runTicks_velocityTicks]
    simp [tick3State]
  · intro h
    norm_num [List.getD] at h

/-- Claim C7: whenever `processHand` succeeds, the stored raw combined depth
is `(0.6·palmDepth + 0.4·scaleDepth)·1.5` with
`scaleDepth = -(scale - referenceScale)/referenceScale`, and the stored
smoothed depth is `smoothedDepth·(1-0.7) + rawCombinedDepth·0.7`. -/
theorem depth_formula (l : List Landmark) (s : HandState) (name : String)
    (now : ℝ) (r : HandState) (ev : Option PunchEvent) (p sc : ℝ)
    (h : processHand l s name now = some (r, ev))
    (hp : calculatePalmDepth l = some p)
    (hsc : calculateHandScale l = some sc) :
    r.scaleDepth = -(sc - REFERENCE_HAND_SIZE) / REFERENCE_HAND_SIZE ∧
    r.rawCombinedDepth = (0.6 * p + 0.4 * r.scaleDepth) * 1.5 ∧
    r.smoothedDepth = s.smoothedDepth * (1 - 0.7) + r.rawCombinedDepth * 0.7 := by
  rw [processHand_eq, hp, hsc] at h
  cases hc : calculateHandCenter l with
  | none => rw [hc] at h; exact absurd h (by simp)
  | some pos =>
    cases hf : detectFist l with
    | none => rw [hc, hf] at h; exact absurd h (by simp)
    | some fist =>
      rw [hc, hf] at h
      simp only [Option.some.injEq] at h
      have hr : r = (processHandPure p sc pos fist s name now).1 := by
        rw [h]
      subst hr
      refine ⟨rfl, ?_, ?_⟩
      · simp only [processHandPure]
        ring
      · simp only [processHandPure, DEPTH_SMOOTHING]

/-- Witness for C7: the first synthetic tick instantiates the formulas. -/
theorem depth_formula_witness :
    tick1State.scaleDepth = -((0:ℝ) - REFERENCE_HAND_SIZE) / REFERENCE_HAND_SIZE ∧
    tick1State.rawCombinedDepth = (0.6 * 0 + 0.4 * tick1State.scaleDepth) * 1.5 ∧
    tick1State.smoothedDepth =
      createHandState.smoothedDepth * (1 - 0.7) + tick1State.rawCombinedDepth * 0.7 :=
  depth_formula (constFrame 0) createHandState "left" 1000 tick1State none 0 0
    processHand_tick1 (calculatePalmDepth_const 0) (calculateHandScale_const 0)

end DepthSensor

namespace DepthSensor

/-- Claim C3 (counterexample): a frame with fewer than 21 landmarks crashes
`processHand` (the code reads properties of `undefined`); modelled by the
empty frame, on which processing returns `none`. -/
theorem malformed_frame_cex :
    processHand [] createHandState "left" 0 = none := by
  rw [processHand_eq]
  simp [calculatePalmDepth]

theorem calculatePalmDepth_map_normZ (l : List Landmark) :
    calculatePalmDepth (l.map normZ) = calculatePalmDepth l := by
  unfold calculatePalmDepth
  simp only [List.getElem?_map]
  cases l[0]? <;> cases l[1]? <;> cases l[5]? <;> cases l[9]? <;>
    cases l[13]? <;> cases l[17]? <;> simp [normZ, zOr0]

theorem calculateHandScale_map_normZ (l : List Landmark) :
    calculateHandScale (l.map normZ) = calculateHandScale l := by
  unfold calculateHandScale
  simp only [List.getElem?_map]
  cases l[0]? <;> cases l[9]? <;> simp [normZ, zOr0]

theorem calculateHandCenter_map_normZ (l : List Landmark) :
    calculateHandCenter (l.map normZ) = calculateHandCenter l := by
  unfold calculateHandCenter
  simp only [List.getElem?_map]
  cases l[0]? <;> cases l[5]? <;> cases l[17]? <;> simp [normZ, zOr0]

theorem detectFist_map_normZ (l : List Landmark) :
    detectFist (l.map normZ) = detectFist l := by
  unfold detectFist
  simp only [List.getElem?_map]
  cases l[0]? <;> cases l[8]? <;> cases l[5]? <;> cases l[12]? <;>
    cases l[9]? <;> cases l[16]? <;> cases l[13]? <;> cases l[20]? <;>
    cases l[17]? <;> rfl

/-- Claim C3 (amended): a frame with the full 21 landmarks is always
processed successfully, and a missing z coordinate behaves exactly as an
explicit 0 — replacing every missing z by 0 leaves processing unchanged. -/
theorem malformed_frame_amended :
    (∀ (l : List Landmark) (s : HandState) (name : String) (now : ℝ),
      21 ≤ l.length → (processHand l s name now).isSome) ∧
    (∀ (l : List Landmark) (s : HandState) (name : String) (now : ℝ),
      processHand (l.map normZ) s name now = processHand l s name now) := by
  constructor
  · intro l s name now hl
    have h21 : ∀ i : ℕ, i < 21 → ∃ p, l[i]? = some p := by
      intro i hi
      exact ⟨_, List.getElem?_eq_getElem (lt_of_lt_of_le hi hl)⟩
    obtain ⟨p0, h0⟩ := h21 0 (by norm_num)
    obtain ⟨p1, h1⟩ := h21 1 (by norm_num)
    obtain ⟨p5, h5⟩ := h21 5 (by norm_num)
    obtain ⟨p8, h8⟩ := h21 8 (by norm_num)
    obtain ⟨p9, h9⟩ := h21 9 (by norm_num)
    obtain ⟨p12, h12⟩ := h21 12 (by norm_num)
    obtain ⟨p13, h13⟩ := h21 13 (by norm_num)
    obtain ⟨p16, h16⟩ := h21 16 (by norm_num)
    obtain ⟨p17, h17⟩ := h21 17 (by norm_num)
    obtain ⟨p20, h20⟩ := h21 20 (by norm_num)
    rw [processHand_eq]
    unfold calculatePalmDepth calculateHandScale calculateHandCenter detectFist
    rw [h0, h1, h5, h8, h9, h12, h13, h16, h17, h20]
    simp
  · intro l s name now
    rw [processHand_eq, processHand_eq, calculatePalmDepth_map_normZ,
      calculateHandScale_map_normZ, calculateHandCenter_map_normZ,
      detectFist_map_normZ]

/-- Witness for C3: the synthetic 21-point frame is processed successfully. -/
theorem malformed_frame_witness :
    21 ≤ (constFrame 0).length ∧
    (processHand (constFrame 0) createHandState "left" 0).isSome :=
  ⟨by simp [constFrame], malformed_frame_amended.1 (constFrame 0)
    createHandState "left" 0 (by simp [constFrame])⟩

end DepthSensor

namespace DepthSensor

/-- If the loop reports the left side undetected, it never touched the left
state and produced no left events. -/
theorem updateLoop_left_undetected :
    ∀ (hands : List (List Landmark)) (hs : List Handedness) (tr : Tracker)
      (now : ℝ) (tr1 : Tracker) (lDet rDet : Bool)
      (levs revs : List PunchEvent),
      updateLoop hands hs tr now = some (tr1, lDet, rDet, levs, revs) →
      lDet = false →
      tr1.leftHandState = tr.leftHandState ∧ levs = [] := by
  intro hands
  induction hands with
  | nil =>
    intro hs tr now tr1 lDet rDet levs revs h hdet
    simp only [updateLoop, Option.some.injEq, Prod.mk.injEq] at h
    obtain ⟨h1, -, -, h4, -⟩ := h
    exact ⟨by rw [← h1], by rw [← h4]⟩
  | cons lm rest ih =>
    intro hs tr now tr1 lDet rDet levs revs h hdet
    cases hs with
    | nil => exact absurd h (by simp [updateLoop])
    | cons hd hrest =>
      by_cases hlab : hd.label = "Right"
      · rw [updateLoop, if_pos hlab] at h
        cases hph : processHand lm tr.leftHandState "left" now with
        | none => rw [hph] at h; exact absurd h (by simp)
        | some pr =>
          obtain ⟨l2, ev⟩ := pr
          rw [hph] at h
          dsimp only at h
          cases hrec : updateLoop rest hrest
              { tr with leftHandState := l2 } now with
          | none => rw [hrec] at h; exact absurd h (by simp)
          | some out =>
            obtain ⟨tr2, lD, rD, lv, rv⟩ := out
            rw [hrec] at h
            dsimp only at h
            simp only [Option.some.injEq, Prod.mk.injEq] at h
            exact absurd h.2.1 (by rw [hdet]; simp)
      · rw [updateLoop, if_neg hlab] at h
        cases hph : processHand lm tr.rightHandState "right" now with
        | none => rw [hph] at h; exact absurd h (by simp)
        | some pr =>
          obtain ⟨r2, ev⟩ := pr
          rw [hph] at h
          dsimp only at h
          cases hrec : updateLoop rest hrest
              { tr with rightHandState := r2 } now with
          | none => rw [hrec] at h; exact absurd h (by simp)
          | some out =>
            obtain ⟨tr2, lD, rD, lv, rv⟩ := out
            rw [hrec] at h
            dsimp only at h
            simp only [Option.some.injEq, Prod.mk.injEq] at h
            obtain ⟨h1, h2, -, h4, -⟩ := h
            have hih := ih hrest { tr with rightHandState := r2 } now tr2 lD rD
              lv rv hrec (h2.trans hdet)
            refine ⟨?_, by rw [← h4]; exact hih.2⟩
            rw [← h1]
            exact hih.1

/-- Mirror: if the loop reports the right side undetected, it never touched
the right state and produced no right events. -/
theorem updateLoop_right_undetected :
    ∀ (hands : List (List Landmark)) (hs : List Handedness) (tr : Tracker)
      (now : ℝ) (tr1 : Tracker) (lDet rDet : Bool)
      (levs revs : List PunchEvent),
      updateLoop hands hs tr now = some (tr1, lDet, rDet, levs, revs) →
      rDet = false →
      tr1.rightHandState = tr.rightHandState ∧ revs = [] := by
  intro hands
  induction hands with
  | nil =>
    intro hs tr now tr1 lDet rDet levs revs h hdet
    simp only [updateLoop, Option.some.injEq, Prod.mk.injEq] at h
    obtain ⟨h1, -, -, -, h5⟩ := h
    exact ⟨by rw [← h1], by rw [← h5]⟩
  | cons lm rest ih =>
    intro hs tr now tr1 lDet rDet levs revs h hdet
    cases hs with
    | nil => exact absurd h (by simp [updateLoop])
    | cons hd hrest =>
      by_cases hlab : hd.label = "Right"
      · rw [updateLoop, if_pos hlab] at h
        cases hph : processHand lm tr.leftHandState "left" now with
        | none => rw [hph] at h; exact absurd h (by simp)
        | some pr =>
          obtain ⟨l2, ev⟩ := pr
          rw [hph] at h
          dsimp only at h
          cases hrec : updateLoop rest hrest
              { tr with leftHandState := l2 } now with
          | none => rw [hrec] at h; exact absurd h (by simp)
          | some out =>
            obtain ⟨tr2, lD, rD, lv, rv⟩ := out
            rw [hrec] at h
            dsimp only at h
            simp only [Option.some.injEq, Prod.mk.injEq] at h
            obtain ⟨h1, -, h3, -, h5⟩ := h
            have hih := ih hrest { tr with leftHandState := l2 } now tr2 lD rD
              lv rv hrec (h3.trans hdet)
            refine ⟨?_, by rw [← h5]; exact hih.2⟩
            rw [← h1]
            exact hih.1
      · rw [updateLoop, if_neg hlab] at h
        cases hph : processHand lm tr.rightHandState "right" now with
        | none => rw [hph] at h; exact absurd h (by simp)
        | some pr =>
          obtain ⟨r2, ev⟩ := pr
          rw [hph] at h
          dsimp only at h
          cases hrec : updateLoop rest hrest
              { tr with rightHandState := r2 } now with
          | none => rw [hrec] at h; exact absurd h (by simp)
          | some out =>
            obtain ⟨tr2, lD, rD, lv, rv⟩ := out
            rw [hrec] at h
            dsimp only at h
            simp only [Option.some.injEq, Prod.mk.injEq] at h
            exact absurd h.2.2.1 (by rw [hdet]; simp)

end DepthSensor

namespace DepthSensor

/-- Claim C10: on a tick where a side is not detected, only `depth` (×0.9),
`velocity` (×0.8) and `isPunching` (cleared) change — `smoothedDepth` and
both histories are untouched — and smoothing after re-detection resumes from
the preserved `smoothedDepth`: applying the decay before `processHand` does
not change the resulting smoothed depth. -/
theorem decay_frame :
    (∀ (res : Results) (tr : Tracker) (now : ℝ) (tr2 : Tracker)
      (out : UpdateRet), update res tr now = some (tr2, out) →
      (out.left = none →
        tr2.leftHandState = { tr.leftHandState with
          depth := tr.leftHandState.depth * 0.9
          velocity := tr.leftHandState.velocity * 0.8
          isPunching := false }) ∧
      (out.right = none →
        tr2.rightHandState = { tr.rightHandState with
          depth := tr.rightHandState.depth * 0.9
          velocity := tr.rightHandState.velocity * 0.8
          isPunching := false })) ∧
    (∀ (l : List Landmark) (s : HandState) (name : String) (now : ℝ),
      (processHand l
          { s with
            depth := s.depth * 0.9
            velocity := s.velocity * 0.8
            isPunching := false } name now).map
        (fun pr => pr.1.smoothedDepth) =
      (processHand l s name now).map (fun pr => pr.1.smoothedDepth)) := by
  constructor
  · intro res tr now tr2 out h
    obtain ⟨mhl, mh⟩ := res
    cases mhl with
    | none =>
      cases mh <;>
      · simp only [update, Option.some.injEq, Prod.mk.injEq] at h
        obtain ⟨h1, h2⟩ := h
        constructor
        · intro _
          rw [← h1]
          simp
        · intro _
          rw [← h1]
          simp
    | some mhl =>
      cases mh with
      | none =>
        simp only [update, Option.some.injEq, Prod.mk.injEq] at h
        obtain ⟨h1, h2⟩ := h
        constructor
        · intro _
          rw [← h1]
          simp
        · intro _
          rw [← h1]
          simp
      | some mh =>
        rw [update] at h
        dsimp only at h
        cases hloop : updateLoop mhl mh tr now with
        | none => rw [hloop] at h; exact absurd h (by simp)
        | some out1 =>
          obtain ⟨tr1, lD, rD, lv, rv⟩ := out1
          rw [hloop] at h
          dsimp only at h
          simp only [Option.some.injEq, Prod.mk.injEq] at h
          obtain ⟨h1, h2⟩ := h
          constructor
          · intro hnone
            rw [← h2] at hnone
            cases lD with
            | true => exact absurd hnone (by simp)
            | false =>
              have hun := updateLoop_left_undetected mhl mh tr now tr1 false rD
                lv rv hloop rfl
              rw [← h1]
              simp [hun.1]
          · intro hnone
            rw [← h2] at hnone
            cases rD with
            | true => exact absurd hnone (by simp)
            | false =>
              have hun := updateLoop_right_undetected mhl mh tr now tr1 lD false
                lv rv hloop rfl
              rw [← h1]
              simp [hun.1]
  · intro l s name now
    rw [processHand_eq, processHand_eq]
    cases calculatePalmDepth l <;> cases calculateHandScale l <;>
      cases calculateHandCenter l <;> cases detectFist l <;>
      simp [processHandPure]

/-- Witness for C10: the empty-results tick applied to the fresh tracker. -/
theorem decay_frame_witness :
    ({ leftHandState := { initialTracker.leftHandState with
          depth := initialTracker.leftHandState.depth * 0.9
          velocity := initialTracker.leftHandState.velocity * 0.8
          isPunching := false }
       rightHandState := { initialTracker.rightHandState with
          depth := initialTracker.rightHandState.depth * 0.9
          velocity := initialTracker.rightHandState.velocity * 0.8
          isPunching := false } } : Tracker).leftHandState =
      { initialTracker.leftHandState with
        depth := initialTracker.leftHandState.depth * 0.9
        velocity := initialTracker.leftHandState.velocity * 0.8
        isPunching := false } :=
  (decay_frame.1 resEmpty initialTracker 0 _ _ (update_resEmpty initialTracker 0)).1
    rfl

end DepthSensor

namespace DepthSensor

/-- Lift a per-call invariant of the pure core to `processHand`. -/
theorem processHand_preserves (P : HandState → Prop)
    (hP : ∀ (p sc : ℝ) (pos : Pos3) (f : Bool) (s : HandState) (name : String)
      (now : ℝ), P s → P (processHandPure p sc pos f s name now).1) :
    ∀ (l : List Landmark) (s : HandState) (name : String) (now : ℝ)
      (r : HandState) (ev : Option PunchEvent),
      processHand l s name now = some (r, ev) → P s → P r := by
  intro l s name now r ev h hs
  rw [processHand_eq] at h
  split at h
  · simp only [Option.some.injEq] at h
    rename_i p sc pos f h1 h2 h3 h4
    have hr := hP p sc pos f s name now hs
    rw [h] at hr
    exact hr
  · exact absurd h (by simp)

/-- The loop preserves a per-call invariant on both sides. -/
theorem updateLoop_preserves (P : HandState → Prop)
    (hP : ∀ (p sc : ℝ) (pos : Pos3) (f : Bool) (s : HandState) (name : String)
      (now : ℝ), P s → P (processHandPure p sc pos f s name now).1) :
    ∀ (hands : List (List Landmark)) (hs : List Handedness) (tr : Tracker)
      (now : ℝ) (tr1 : Tracker) (lDet rDet : Bool)
      (levs revs : List PunchEvent),
      updateLoop hands hs tr now = some (tr1, lDet, rDet, levs, revs) →
      P tr.leftHandState → P tr.rightHandState →
      P tr1.leftHandState ∧ P tr1.rightHandState := by
  intro hands
  induction hands with
  | nil =>
    intro hs tr now tr1 lDet rDet levs revs h hl hr
    simp only [updateLoop, Option.some.injEq, Prod.mk.injEq] at h
    rw [← h.1]
    exact ⟨hl, hr⟩
  | cons lm rest ih =>
    intro hs tr now tr1 lDet rDet levs revs h hl hr
    cases hs with
    | nil => exact absurd h (by simp [updateLoop])
    | cons hd hrest =>
      by_cases hlab : hd.label = "Right"
      · rw [updateLoop, if_pos hlab] at h
        cases hph : processHand lm tr.leftHandState "left" now with
        | none => rw [hph] at h; exact absurd h (by simp)
        | some pr =>
          obtain ⟨l2, ev⟩ := pr
          rw [hph] at h
          dsimp only at h
          cases hrec : updateLoop rest hrest
              { tr with leftHandState := l2 } now with
          | none => rw [hrec] at h; exact absurd h (by simp)
          | some out =>
            obtain ⟨tr2, lD, rD, lv, rv⟩ := out
            rw [hrec] at h
            dsimp only at h
            simp only [Option.some.injEq, Prod.mk.injEq] at h
            have hl2 := processHand_preserves P hP lm tr.leftHandState "left"
              now l2 ev hph hl
            have hih := ih hrest { tr with leftHandState := l2 } now tr2 lD rD
              lv rv hrec hl2 hr
            rw [← h.1]
            exact hih
      · rw [updateLoop, if_neg hlab] at h
        cases hph : processHand lm tr.rightHandState "right" now with
        | none => rw [hph] at h; exact absurd h (by simp)
        | some pr =>
          obtain ⟨r2, ev⟩ := pr
          rw [hph] at h
          dsimp only at h
          cases hrec : updateLoop rest hrest
              { tr with rightHandState := r2 } now with
          | none => rw [hrec] at h; exact absurd h (by simp)
          | some out =>
            obtain ⟨tr2, lD, rD, lv, rv⟩ := out
            rw [hrec] at h
            dsimp only at h
            simp only [Option.some.injEq, Prod.mk.injEq] at h
            have hr2 := processHand_preserves P hP lm tr.rightHandState "right"
              now r2 ev hph hr
            have hih := ih hrest { tr with rightHandState := r2 } now tr2 lD rD
              lv rv hrec hl hr2
            rw [← h.1]
            exact hih

/-- Function `update` preserves an invariant that also survives the decay step. -/
theorem update_preserves (P : HandState → Prop)
    (hP : ∀ (p sc : ℝ) (pos : Pos3) (f : Bool) (s : HandState) (name : String)
      (now : ℝ), P s → P (processHandPure p sc pos f s name now).1)
    (hdecay : ∀ s : HandState,
      P s → P { s with depth := s.depth * 0.9, velocity := s.velocity * 0.8, isPunching := false }) :
    ∀ (res : Results) (tr : Tracker) (now : ℝ) (tr2 : Tracker)
      (out : UpdateRet), update res tr now = some (tr2, out) →
      P tr.leftHandState → P tr.rightHandState →
      P tr2.leftHandState ∧ P tr2.rightHandState := by
  intro res tr now tr2 out h hl hr
  obtain ⟨mhl, mh⟩ := res
  have hbase : ∀ (s : HandState) (b : Bool), P s →
      P (if b = true then s
        else { s with depth := s.depth * 0.9, velocity := s.velocity * 0.8, isPunching := false }) := by
    intro s b hs
    cases b
    · simpa using hdecay s hs
    · simpa using hs
  cases mhl with
  | none =>
    cases mh <;>
    · simp only [update, Option.some.injEq, Prod.mk.injEq] at h
      rw [← h.1]
      exact ⟨hbase _ false hl, hbase _ false hr⟩
  | some mhl =>
    cases mh with
    | none =>
      simp only [update, Option.some.injEq, Prod.mk.injEq] at h
      rw [← h.1]
      exact ⟨hbase _ false hl, hbase _ false hr⟩
    | some mh =>
      rw [update] at h
      dsimp only at h
      cases hloop : updateLoop mhl mh tr now with
      | none => rw [hloop] at h; exact absurd h (by simp)
      | some out1 =>
        obtain ⟨tr1, lD, rD, lv, rv⟩ := out1
        rw [hloop] at h
        dsimp only at h
        simp only [Option.some.injEq, Prod.mk.injEq] at h
        have hup := updateLoop_preserves P hP mhl mh tr now tr1 lD rD lv rv
          hloop hl hr
        rw [← h.1]
        exact ⟨hbase _ lD hup.1, hbase _ rD hup.2⟩

/-- A full run preserves such an invariant. -/
theorem runTicks_preserves (P : HandState → Prop)
    (hP : ∀ (p sc : ℝ) (pos : Pos3) (f : Bool) (s : HandState) (name : String)
      (now : ℝ), P s → P (processHandPure p sc pos f s name now).1)
    (hdecay : ∀ s : HandState,
      P s → P { s with depth := s.depth * 0.9, velocity := s.velocity * 0.8, isPunching := false }) :
    ∀ (ticks : List (ℝ × Results)) (tr : Tracker) (tr2 : Tracker)
      (logs : List (ℝ × UpdateRet)),
      runTicks tr ticks = some (tr2, logs) →
      P tr.leftHandState → P tr.rightHandState →
      P tr2.leftHandState ∧ P tr2.rightHandState := by
  intro ticks
  induction ticks with
  | nil =>
    intro tr tr2 logs h hl hr
    simp only [runTicks, Option.some.injEq, Prod.mk.injEq] at h
    rw [← h.1]
    exact ⟨hl, hr⟩
  | cons t rest ih =>
    intro tr tr2 logs h hl hr
    obtain ⟨now, res⟩ := t
    rw [runTicks] at h
    cases hup : update res tr now with
    | none => rw [hup] at h; exact absurd h (by simp)
    | some out1 =>
      obtain ⟨tr1, out⟩ := out1
      rw [hup] at h
      dsimp only at h
      cases hrec : runTicks tr1 rest with
      | none => rw [hrec] at h; exact absurd h (by simp)
      | some out2 =>
        obtain ⟨tr3, logs1⟩ := out2
        rw [hrec] at h
        dsimp only at h
        simp only [Option.some.injEq, Prod.mk.injEq] at h
        have h1 := update_preserves P hP hdecay res tr now tr1 out hup hl hr
        have h2 := ih tr1 tr3 logs1 hrec h1.1 h1.2
        rw [← h.1]
        exact h2

end DepthSensor

namespace DepthSensor

/-- Push-then-trim keeps a list within its capacity. -/
theorem pushTrim_length_le (l : List ℝ) (x : ℝ) (m : ℕ) (h : l.length ≤ m) :
    (if m < (l ++ [x]).length then (l ++ [x]).tail else l ++ [x]).length ≤ m := by
  split
  · simp only [List.length_tail, List.length_append, List.length_cons,
      List.length_nil]
    omega
  · rename_i hc
    simp only [List.length_append, List.length_cons, List.length_nil] at hc ⊢
    omega

/-- The pure core keeps both histories within their capacities. -/
theorem processHandPure_sizeInv (p sc : ℝ) (pos : Pos3) (f : Bool)
    (s : HandState) (name : String) (now : ℝ) (h : sizeInv s) :
    sizeInv (processHandPure p sc pos f s name now).1 := by
  obtain ⟨hd, hv, hm, hvm⟩ := h
  simp only [processHandPure, sizeInv]
  try dsimp only
  rw [hm, hvm]
  exact ⟨pushTrim_length_le _ _ _ hd, pushTrim_length_le _ _ _ hv, rfl, rfl⟩

/-- The decay step keeps both histories unchanged, hence bounded. -/
theorem decay_sizeInv (s : HandState) (h : sizeInv s) :
    sizeInv { s with depth := s.depth * 0.9, velocity := s.velocity * 0.8, isPunching := false } := h

/-- The pure core preserves the zero-velocity-before-two-samples invariant. -/
theorem processHandPure_velInv (p sc : ℝ) (pos : Pos3) (f : Bool)
    (s : HandState) (name : String) (now : ℝ) (h : velInv s) :
    velInv (processHandPure p sc pos f s name now).1 := by
  intro hlen
  simp only [processHandPure] at hlen ⊢
  try dsimp only at hlen ⊢
  rw [if_neg (by omega)]
  apply h
  split at hlen
  · rename_i hc
    simp only [List.length_tail, List.length_append, List.length_cons,
      List.length_nil] at hlen hc
    omega
  · simp only [List.length_append, List.length_cons, List.length_nil] at hlen
    omega

/-- The decay step preserves the zero-velocity invariant. -/
theorem decay_velInv (s : HandState) (h : velInv s) :
    velInv { s with depth := s.depth * 0.9, velocity := s.velocity * 0.8, isPunching := false } := by
  intro hlen
  try dsimp only at hlen ⊢
  rw [h hlen]
  norm_num

/-- Eviction in the pure core: with a full depth history the oldest entry is
dropped and the new smoothed sample appended. -/
theorem processHandPure_fifoDepth (p sc : ℝ) (pos : Pos3) (f : Bool)
    (s : HandState) (name : String) (now : ℝ)
    (hm : s.historyMaxLength = 5) (hlen : s.depthHistory.length = 5) :
    (processHandPure p sc pos f s name now).1.depthHistory =
      s.depthHistory.tail ++
        [(processHandPure p sc pos f s name now).1.smoothedDepth] := by
  simp only [processHandPure]
  try dsimp only
  rw [if_pos (by simp [hlen, hm])]
  cases hdh : s.depthHistory with
  | nil => rw [hdh] at hlen; simp at hlen
  | cons a t => simp

/-- Eviction for the velocity history. -/
theorem processHandPure_fifoVel (p sc : ℝ) (pos : Pos3) (f : Bool)
    (s : HandState) (name : String) (now : ℝ)
    (hm : s.velocityHistoryMaxLength = 50) (hlen : s.velocityHistory.length = 50) :
    (processHandPure p sc pos f s name now).1.velocityHistory =
      s.velocityHistory.tail ++
        [(processHandPure p sc pos f s name now).1.velocity] := by
  simp only [processHandPure]
  try dsimp only
  rw [if_pos (by simp [hlen, hm])]
  cases hdh : s.velocityHistory with
  | nil => rw [hdh] at hlen; simp at hlen
  | cons a t => simp

/-- With at least two samples, the stored velocity is the difference of the
last two entries of the updated depth history. -/
theorem processHandPure_velocity (p sc : ℝ) (pos : Pos3) (f : Bool)
    (s : HandState) (name : String) (now : ℝ)
    (h2 : 2 ≤ (processHandPure p sc pos f s name now).1.depthHistory.length) :
    (processHandPure p sc pos f s name now).1.velocity =
      (processHandPure p sc pos f s name now).1.depthHistory.getD
        ((processHandPure p sc pos f s name now).1.depthHistory.length - 1) 0 -
      (processHandPure p sc pos f s name now).1.depthHistory.getD
        ((processHandPure p sc pos f s name now).1.depthHistory.length - 2) 0 := by
  simp only [processHandPure] at h2 ⊢
  try dsimp only at h2 ⊢
  rw [if_pos h2]

end DepthSensor

namespace DepthSensor

/-- Every successful `processHand` call factors through the pure core. -/
theorem processHand_as_pure (l : List Landmark) (s : HandState) (name : String)
    (now : ℝ) (r : HandState) (ev : Option PunchEvent)
    (h : processHand l s name now = some (r, ev)) :
    ∃ (p sc : ℝ) (pos : Pos3) (f : Bool),
      (processHandPure p sc pos f s name now).1 = r ∧
      (processHandPure p sc pos f s name now).2 = ev := by
  rw [processHand_eq] at h
  split at h
  · simp only [Option.some.injEq] at h
    rename_i p sc pos f h1 h2 h3 h4
    exact ⟨p, sc, pos, f, by rw [h], by rw [h]⟩
  · exact absurd h (by simp)

/-- Claim C8: in every reachable tracker state the depth history holds at
most 5 entries and the velocity history at most 50, and on overflow the
oldest entry is evicted first: from a full history, the new history is the
old one minus its head, plus the new sample at the end. -/
theorem history_bounds :
    (∀ (ticks : List (ℝ × Results)) (tr2 : Tracker)
      (logs : List (ℝ × UpdateRet)),
      runTicks initialTracker ticks = some (tr2, logs) →
      tr2.leftHandState.depthHistory.length ≤ 5 ∧
      tr2.leftHandState.velocityHistory.length ≤ 50 ∧
      tr2.rightHandState.depthHistory.length ≤ 5 ∧
      tr2.rightHandState.velocityHistory.length ≤ 50) ∧
    (∀ (l : List Landmark) (s : HandState) (name : String) (now : ℝ)
      (r : HandState) (ev : Option PunchEvent),
      processHand l s name now = some (r, ev) →
      s.historyMaxLength = 5 → s.depthHistory.length = 5 →
      r.depthHistory = s.depthHistory.tail ++ [r.smoothedDepth]) ∧
    (∀ (l : List Landmark) (s : HandState) (name : String) (now : ℝ)
      (r : HandState) (ev : Option PunchEvent),
      processHand l s name now = some (r, ev) →
      s.velocityHistoryMaxLength = 50 → s.velocityHistory.length = 50 →
      r.velocityHistory = s.velocityHistory.tail ++ [r.velocity]) := by
  refine ⟨?_, ?_, ?_⟩
  · intro ticks tr2 logs h
    have hinit : sizeInv createHandState := by
      simp [sizeInv, createHandState]
    have hrun := runTicks_preserves sizeInv processHandPure_sizeInv
      decay_sizeInv ticks initialTracker tr2 logs h hinit hinit
    exact ⟨hrun.1.1, hrun.1.2.1, hrun.2.1, hrun.2.2.1⟩
  · intro l s name now r ev h hm hlen
    obtain ⟨p, sc, pos, f, h1, -⟩ := processHand_as_pure l s name now r ev h
    rw [← h1]
    exact processHandPure_fifoDepth p sc pos f s name now hm hlen
  · intro l s name now r ev h hm hlen
    obtain ⟨p, sc, pos, f, h1, -⟩ := processHand_as_pure l s name now r ev h
    rw [← h1]
    exact processHandPure_fifoVel p sc pos f s name now hm hlen

/-- Witness for C8: the one-tick run respects the bounds, and processing a
full history evicts its head. -/
theorem history_bounds_witness :
    tick1State.depthHistory.length ≤ 5 ∧
    tick1State.velocityHistory.length ≤ 50 ∧
    fullHistState.historyMaxLength = 5 ∧
    fullHistState.depthHistory.length = 5 ∧
    fullHistNext.depthHistory =
      fullHistState.depthHistory.tail ++ [fullHistNext.smoothedDepth] := by
  have hb := history_bounds.1 oneTick _ _ runTicks_oneTick
  refine ⟨hb.1, hb.2.1, by simp [fullHistState, createHandState],
    by simp [fullHistState, createHandState], ?_⟩
  exact history_bounds.2.1 (constFrame 0) fullHistState "left" 0 fullHistNext
    none processHand_fullHist (by simp [fullHistState, createHandState])
    (by simp [fullHistState, createHandState])

/-- Claim C5 (amended): in every reachable state, a side whose depth history
has fewer than two samples has velocity 0; and immediately after a processed
(detected) frame the stored velocity equals the difference of the last two
depth-history entries.  (On an undetected tick the velocity is instead
multiplied by 0.8 while the history is unchanged, so the difference property
does not survive such ticks — see the counterexample.) -/
theorem velocity_amended :
    (∀ (ticks : List (ℝ × Results)) (tr2 : Tracker)
      (logs : List (ℝ × UpdateRet)),
      runTicks initialTracker ticks = some (tr2, logs) →
      (tr2.leftHandState.depthHistory.length < 2 →
        tr2.leftHandState.velocity = 0) ∧
      (tr2.rightHandState.depthHistory.length < 2 →
        tr2.rightHandState.velocity = 0)) ∧
    (∀ (l : List Landmark) (s : HandState) (name : String) (now : ℝ)
      (r : HandState) (ev : Option PunchEvent),
      processHand l s name now = some (r, ev) →
      2 ≤ r.depthHistory.length →
      r.velocity = r.depthHistory.getD (r.depthHistory.length - 1) 0 -
        r.depthHistory.getD (r.depthHistory.length - 2) 0) := by
  constructor
  · intro ticks tr2 logs h
    have hinit : velInv createHandState := by
      intro hlen
      simp [createHandState]
    exact runTicks_preserves velInv processHandPure_velInv decay_velInv ticks
      initialTracker tr2 logs h hinit hinit
  · intro l s name now r ev h h2
    obtain ⟨p, sc, pos, f, h1, -⟩ := processHand_as_pure l s name now r ev h
    rw [← h1] at h2 ⊢
    exact processHandPure_velocity p sc pos f s name now h2

/-- Witness for C5 (amended): both parts at concrete synthetic states. -/
theorem velocity_amended_witness :
    tick1State.depthHistory.length < 2 ∧ tick1State.velocity = 0 ∧
    2 ≤ tick2State.depthHistory.length ∧
    tick2State.velocity =
      tick2State.depthHistory.getD (tick2State.depthHistory.length - 1) 0 -
      tick2State.depthHistory.getD (tick2State.depthHistory.length - 2) 0 := by
  refine ⟨by simp [tick1State], ?_, by simp [tick2State], ?_⟩
  · exact (velocity_amended.1 oneTick _ _ runTicks_oneTick).1
      (by simp [tick1State])
  · exact velocity_amended.2 (constFrame (-10)) tick1State "left" 1010
      tick2State (some punchEvent2) processHand_tick2 (by simp [tick2State])

end DepthSensor

namespace Snapshot

/-- Claim C4 (counterexample): pushing 99 through the snapshot's
`depthHistory` reference changes the depth history the tracker itself
observes — the spread copy is shallow, so nested arrays are aliased. -/
theorem snapshot_shallow_cex :
    internalDepthHistory sampleStore sampleState = some [1, 2] ∧
    internalDepthHistory
      (pushAt sampleStore (getHandStates sampleState sampleState).1.depthHistory 99)
      sampleState = some [1, 2, 99] ∧
    internalDepthHistory
        (pushAt sampleStore (getHandStates sampleState sampleState).1.depthHistory 99)
        sampleState ≠
      internalDepthHistory sampleStore sampleState := by
  refine ⟨by decide, by decide, by decide⟩

/-- Claim C4 (amended): the spread copy is shallow.  Its nested
`depthHistory`, `velocityHistory` and `position` fields alias the internal
state's references, so mutating through them is observed internally, while
replacing a top-level scalar field on the snapshot leaves the store — and
hence everything the tracker observes — unchanged. -/
theorem snapshot_shallow_copy :
    (∀ s : HandStateObj, (spreadCopy s).depthHistory = s.depthHistory ∧
      (spreadCopy s).velocityHistory = s.velocityHistory ∧
      (spreadCopy s).position = s.position) ∧
    (∀ (st : Store) (s : HandStateObj) (v : ℚ),
      s.depthHistory < st.arrays.length →
      internalDepthHistory (pushAt st (spreadCopy s).depthHistory v) s =
        (internalDepthHistory st s).map (fun l => l ++ [v])) ∧
    (∀ (st : Store) (s : HandStateObj) (x : ℚ),
      internalDepthHistory st { spreadCopy s with depth := x } =
        internalDepthHistory st s) := by
  refine ⟨fun s => ⟨rfl, rfl, rfl⟩, ?_, fun st s x => rfl⟩
  intro st s v h
  unfold internalDepthHistory readArray pushAt spreadCopy
  dsimp only
  rw [List.getElem?_set_self h, List.getElem?_eq_getElem h]
  simp [List.getD, List.getElem?_eq_getElem h]

/-- Witness for C4 (amended): the aliasing equation at the sample store. -/
theorem snapshot_shallow_copy_witness :
    sampleState.depthHistory < sampleStore.arrays.length ∧
    internalDepthHistory (pushAt sampleStore (spreadCopy sampleState).depthHistory 99)
        sampleState =
      (internalDepthHistory sampleStore sampleState).map (fun l => l ++ [99]) :=
  ⟨by decide, snapshot_shallow_copy.2.1 sampleStore sampleState 99 (by decide)⟩

end Snapshot

namespace DepthSensor

/-- An if-then-else of two bounded values is bounded. -/
theorem ite_le_of_le {c : Prop} [Decidable c] {a b t : ℝ} (ha : a ≤ t)
    (hb : b ≤ t) : (if c then a else b) ≤ t := by
  split
  · exact ha
  · exact hb

/-- A some/none conditional that returns `none` has a false condition. -/
theorem cond_of_ite_eq_none {α : Type} {c : Prop} [Decidable c] {e : α}
    (h : (if c then some e else none) = none) : ¬c := by
  intro hc
  rw [if_pos hc] at h
  exact absurd h (by simp)

/-- A some/none conditional that is not `none` has a true condition. -/
theorem cond_of_ite_ne_none {α : Type} {c : Prop} [Decidable c] {e : α}
    (h : (if c then some e else none) ≠ none) : c := by
  by_contra hc
  exact h (if_neg hc)

/-- Either the punch flag stays set or the cooldown clock is stamped. -/
theorem ite_punch_or {c : Prop} [Decidable c] (lp t : ℝ) :
    (if c then false else true) = true ∨ (if c then t else lp) = t := by
  split
  · exact Or.inr rfl
  · exact Or.inl rfl

/-- Per-call punch bookkeeping of the pure core: the cooldown clock never
runs ahead of the clock; without an event, a non-punching state keeps its
flag and clock, and a punching state ends up in `afterPunch`; an event can
only fire from a non-punching state whose cooldown expired, and leaves the
state in `afterPunch`. -/
theorem processHandPure_punchStep (p sc : ℝ) (pos : Pos3) (f : Bool)
    (s : HandState) (name : String) (now : ℝ) (hclk : s.lastPunchTime ≤ now) :
    (processHandPure p sc pos f s name now).1.lastPunchTime ≤ now ∧
    ((processHandPure p sc pos f s name now).2 = none →
      (s.isPunching = false →
        (processHandPure p sc pos f s name now).1.isPunching = false ∧
        (processHandPure p sc pos f s name now).1.lastPunchTime =
          s.lastPunchTime) ∧
      (s.isPunching = true →
        afterPunch (processHandPure p sc pos f s name now).1 now)) ∧
    ((processHandPure p sc pos f s name now).2 ≠ none →
      s.isPunching = false ∧ s.lastPunchTime + PUNCH_COOLDOWN < now ∧
      afterPunch (processHandPure p sc pos f s name now).1 now) := by
  simp only [processHandPure, afterPunch]
  try dsimp only
  refine ⟨ite_le_of_le (le_refl now) hclk, ?_, ?_⟩
  · intro hev
    have honset := cond_of_ite_eq_none hev
    constructor
    · intro hsp
      rw [if_neg honset, hsp]
      simp
    · intro hsp
      rw [if_neg honset, hsp]
      exact ite_punch_or s.lastPunchTime now
  · intro hev
    have honset := cond_of_ite_ne_none hev
    refine ⟨honset.1, by linarith [honset.2.2], ?_⟩
    rw [if_pos honset]
    exact ite_punch_or s.lastPunchTime now

end DepthSensor

namespace DepthSensor

/-- Punch bookkeeping lifted to `processHand`. -/
theorem processHand_punchStep (l : List Landmark) (s : HandState)
    (name : String) (now : ℝ) (r : HandState) (ev : Option PunchEvent)
    (h : processHand l s name now = some (r, ev))
    (hclk : s.lastPunchTime ≤ now) :
    r.lastPunchTime ≤ now ∧
    (ev = none →
      (s.isPunching = false →
        r.isPunching = false ∧ r.lastPunchTime = s.lastPunchTime) ∧
      (s.isPunching = true → afterPunch r now)) ∧
    (ev ≠ none → s.isPunching = false ∧
      s.lastPunchTime + PUNCH_COOLDOWN < now ∧ afterPunch r now) := by
  obtain ⟨p, sc, pos, f, h1, h2⟩ := processHand_as_pure l s name now r ev h
  have hstep := processHandPure_punchStep p sc pos f s name now hclk
  rw [h1, h2] at hstep
  exact hstep

/-- A state in `afterPunch` cannot fire an event at the same time stamp. -/
theorem processHand_afterPunch (l : List Landmark) (s : HandState)
    (name : String) (now : ℝ) (r : HandState) (ev : Option PunchEvent)
    (h : processHand l s name now = some (r, ev))
    (hclk : s.lastPunchTime ≤ now) (hafter : afterPunch s now) :
    ev = none ∧ afterPunch r now ∧ r.lastPunchTime ≤ now := by
  have hstep := processHand_punchStep l s name now r ev h hclk
  by_cases hev : ev = none
  · refine ⟨hev, ?_, hstep.1⟩
    cases hsp : s.isPunching with
    | true => exact (hstep.2.1 hev).2 hsp
    | false =>
      cases hafter with
      | inl hpun => rw [hsp] at hpun; exact absurd hpun (by simp)
      | inr hlp =>
        have hpre := (hstep.2.1 hev).1 hsp
        exact Or.inr (hpre.2.trans hlp)
  · exfalso
    have hfire := hstep.2.2 hev
    cases hafter with
    | inl hpun => rw [hfire.1] at hpun; exact absurd hpun (by simp)
    | inr hlp =>
      have := hfire.2.1
      rw [hlp] at this
      rw [PUNCH_COOLDOWN] at this
      linarith

/-- Once the left side is in `afterPunch` for this tick, the rest of the
loop fires no further left events and keeps the state in `afterPunch`. -/
theorem updateLoop_leftAfter :
    ∀ (hands : List (List Landmark)) (hs : List Handedness) (tr : Tracker)
      (now : ℝ) (tr1 : Tracker) (lDet rDet : Bool)
      (levs revs : List PunchEvent),
      updateLoop hands hs tr now = some (tr1, lDet, rDet, levs, revs) →
      tr.leftHandState.lastPunchTime ≤ now →
      afterPunch tr.leftHandState now →
      levs = [] ∧ afterPunch tr1.leftHandState now ∧
      tr1.leftHandState.lastPunchTime ≤ now := by
  intro hands
  induction hands with
  | nil =>
    intro hs tr now tr1 lDet rDet levs revs h hclk hafter
    simp only [updateLoop, Option.some.injEq, Prod.mk.injEq] at h
    obtain ⟨h1, -, -, h4, -⟩ := h
    rw [← h1, ← h4]
    exact ⟨rfl, hafter, hclk⟩
  | cons lm rest ih =>
    intro hs tr now tr1 lDet rDet levs revs h hclk hafter
    cases hs with
    | nil => exact absurd h (by simp [updateLoop])
    | cons hd hrest =>
      by_cases hlab : hd.label = "Right"
      · rw [updateLoop, if_pos hlab] at h
        cases hph : processHand lm tr.leftHandState "left" now with
        | none => rw [hph] at h; exact absurd h (by simp)
        | some pr =>
          obtain ⟨l2, ev⟩ := pr
          rw [hph] at h
          dsimp only at h
          cases hrec : updateLoop rest hrest
              { tr with leftHandState := l2 } now with
          | none => rw [hrec] at h; exact absurd h (by simp)
          | some out =>
            obtain ⟨tr2, lD, rD, lv, rv⟩ := out
            rw [hrec] at h
            dsimp only at h
            simp only [Option.some.injEq, Prod.mk.injEq] at h
            have hcall := processHand_afterPunch lm tr.leftHandState "left"
              now l2 ev hph hclk hafter
            have hih := ih hrest { tr with leftHandState := l2 } now tr2 lD rD
              lv rv hrec hcall.2.2 hcall.2.1
            obtain ⟨h1, -, -, h4, -⟩ := h
            refine ⟨?_, ?_, ?_⟩
            · rw [← h4, hcall.1, hih.1]
              rfl
            · rw [← h1]
              exact hih.2.1
            · rw [← h1]
              exact hih.2.2
      · rw [updateLoop, if_neg hlab] at h
        cases hph : processHand lm tr.rightHandState "right" now with
        | none => rw [hph] at h; exact absurd h (by simp)
        | some pr =>
          obtain ⟨r2, ev⟩ := pr
          rw [hph] at h
          dsimp only at h
          cases hrec : updateLoop rest hrest
              { tr with rightHandState := r2 } now with
          | none => rw [hrec] at h; exact absurd h (by simp)
          | some out =>
            obtain ⟨tr2, lD, rD, lv, rv⟩ := out
            rw [hrec] at h
            dsimp only at h
            simp only [Option.some.injEq, Prod.mk.injEq] at h
            obtain ⟨h1, -, -, h4, -⟩ := h
            have hih := ih hrest { tr with rightHandState := r2 } now tr2 lD rD
              lv rv hrec hclk hafter
            refine ⟨?_, ?_, ?_⟩
            · rw [← h4]
              exact hih.1
            · rw [← h1]
              exact hih.2.1
            · rw [← h1]
              exact hih.2.2

end DepthSensor

namespace DepthSensor

/-- Left-side punch bookkeeping across one tick's hand loop: the cooldown
clock stays behind the clock; a tick without left events preserves the
punch flag and clock of a non-punching state and drives a punching state
into `afterPunch`; a tick with left events fires exactly one, from a
non-punching state whose cooldown had expired, and ends in `afterPunch`. -/
theorem updateLoop_leftPunch :
    ∀ (hands : List (List Landmark)) (hs : List Handedness) (tr : Tracker)
      (now : ℝ) (tr1 : Tracker) (lDet rDet : Bool)
      (levs revs : List PunchEvent),
      updateLoop hands hs tr now = some (tr1, lDet, rDet, levs, revs) →
      tr.leftHandState.lastPunchTime ≤ now →
      tr1.leftHandState.lastPunchTime ≤ now ∧
      (levs = [] →
        (tr.leftHandState.isPunching = false →
          tr1.leftHandState.isPunching = false ∧
          tr1.leftHandState.lastPunchTime = tr.leftHandState.lastPunchTime) ∧
        (tr.leftHandState.isPunching = true →
          afterPunch tr1.leftHandState now)) ∧
      (levs ≠ [] →
        levs.length = 1 ∧ tr.leftHandState.isPunching = false ∧
        tr.leftHandState.lastPunchTime + PUNCH_COOLDOWN < now ∧
        afterPunch tr1.leftHandState now) := by
  intro hands
  induction hands with
  | nil =>
    intro hs tr now tr1 lDet rDet levs revs h hclk
    simp only [updateLoop, Option.some.injEq, Prod.mk.injEq] at h
    obtain ⟨h1, -, -, h4, -⟩ := h
    rw [← h1, ← h4]
    exact ⟨hclk, fun _ => ⟨fun hsp => ⟨hsp, rfl⟩, fun hsp => Or.inl hsp⟩,
      fun hne => absurd rfl hne⟩
  | cons lm rest ih =>
    intro hs tr now tr1 lDet rDet levs revs h hclk
    cases hs with
    | nil => exact absurd h (by simp [updateLoop])
    | cons hd hrest =>
      by_cases hlab : hd.label = "Right"
      · rw [updateLoop, if_pos hlab] at h
        cases hph : processHand lm tr.leftHandState "left" now with
        | none => rw [hph] at h; exact absurd h (by simp)
        | some pr =>
          obtain ⟨l2, ev⟩ := pr
          rw [hph] at h
          dsimp only at h
          cases hrec : updateLoop rest hrest
              { tr with leftHandState := l2 } now with
          | none => rw [hrec] at h; exact absurd h (by simp)
          | some out =>
            obtain ⟨tr2, lD, rD, lv, rv⟩ := out
            rw [hrec] at h
            dsimp only at h
            simp only [Option.some.injEq, Prod.mk.injEq] at h
            obtain ⟨h1, -, -, h4, -⟩ := h
            have hcall := processHand_punchStep lm tr.leftHandState "left" now
              l2 ev hph hclk
            cases hevc : ev with
            | none =>
              have hih := ih hrest { tr with leftHandState := l2 } now tr2 lD
                rD lv rv hrec hcall.1
              have hlevs : levs = lv := by
                rw [← h4, hevc]
                rfl
              rw [hevc] at hcall
              refine ⟨by rw [← h1]; exact hih.1, ?_, ?_⟩
              · intro hnil
                rw [hlevs] at hnil
                constructor
                · intro hsp
                  have hc1 := (hcall.2.1 rfl).1 hsp
                  have hi1 := (hih.2.1 hnil).1 hc1.1
                  rw [← h1]
                  exact ⟨hi1.1, hi1.2.trans hc1.2⟩
                · intro hsp
                  have hc2 := (hcall.2.1 rfl).2 hsp
                  rw [← h1]
                  cases hc2 with
                  | inl hpun => exact (hih.2.1 hnil).2 hpun
                  | inr hlp =>
                    cases hl2 : l2.isPunching with
                    | true => exact (hih.2.1 hnil).2 hl2
                    | false =>
                      have hi1 := (hih.2.1 hnil).1 hl2
                      exact Or.inr (hi1.2.trans hlp)
              · intro hne
                rw [hlevs] at hne
                have hic := hih.2.2 hne
                have hspf : tr.leftHandState.isPunching = false := by
                  cases hsp : tr.leftHandState.isPunching with
                  | false => rfl
                  | true =>
                    exfalso
                    have hc2 := (hcall.2.1 rfl).2 hsp
                    cases hc2 with
                    | inl hpun => rw [hic.2.1] at hpun; exact absurd hpun (by simp)
                    | inr hlp =>
                      have := hic.2.2.1
                      rw [hlp, PUNCH_COOLDOWN] at this
                      linarith
                have hc1 := (hcall.2.1 rfl).1 hspf
                refine ⟨by rw [hlevs]; exact hic.1, hspf, ?_, by rw [← h1]; exact hic.2.2.2⟩
                have := hic.2.2.1
                rw [hc1.2] at this
                exact this
            | some e =>
              rw [hevc] at hcall
              have hfire := hcall.2.2 (by simp)
              have hrest2 := updateLoop_leftAfter rest hrest
                { tr with leftHandState := l2 } now tr2 lD rD lv rv hrec
                hcall.1 hfire.2.2
              have hlevs : levs = [e] := by
                rw [← h4, hevc, hrest2.1]
                rfl
              refine ⟨by rw [← h1]; exact hrest2.2.2, ?_, ?_⟩
              · intro hnil
                rw [hlevs] at hnil
                exact absurd hnil (by simp)
              · intro hne
                exact ⟨by rw [hlevs]; rfl, hfire.1, hfire.2.1,
                  by rw [← h1]; exact hrest2.2.1⟩
      · rw [updateLoop, if_neg hlab] at h
        cases hph : processHand lm tr.rightHandState "right" now with
        | none => rw [hph] at h; exact absurd h (by simp)
        | some pr =>
          obtain ⟨r2, ev⟩ := pr
          rw [hph] at h
          dsimp only at h
          cases hrec : updateLoop rest hrest
              { tr with rightHandState := r2 } now with
          | none => rw [hrec] at h; exact absurd h (by simp)
          | some out =>
            obtain ⟨tr2, lD, rD, lv, rv⟩ := out
            rw [hrec] at h
            dsimp only at h
            simp only [Option.some.injEq, Prod.mk.injEq] at h
            obtain ⟨h1, -, -, h4, -⟩ := h
            have hih := ih hrest { tr with rightHandState := r2 } now tr2 lD rD
              lv rv hrec hclk
            rw [← h1, ← h4]
            exact hih

end DepthSensor

namespace DepthSensor

/-- Left-side punch bookkeeping for one `update` tick on which the left
hand is detected. -/
theorem update_leftPunch (res : Results) (tr : Tracker) (now : ℝ)
    (tr2 : Tracker) (out : UpdateRet)
    (h : update res tr now = some (tr2, out)) (hdet : out.left ≠ none)
    (hclk : tr.leftHandState.lastPunchTime ≤ now) :
    tr2.leftHandState.lastPunchTime ≤ now ∧
    (out.leftEvents = [] →
      (tr.leftHandState.isPunching = false →
        tr2.leftHandState.isPunching = false ∧
        tr2.leftHandState.lastPunchTime = tr.leftHandState.lastPunchTime) ∧
      (tr.leftHandState.isPunching = true →
        afterPunch tr2.leftHandState now)) ∧
    (out.leftEvents ≠ [] →
      out.leftEvents.length = 1 ∧ tr.leftHandState.isPunching = false ∧
      tr.leftHandState.lastPunchTime + PUNCH_COOLDOWN < now ∧
      afterPunch tr2.leftHandState now) := by
  obtain ⟨mhl, mh⟩ := res
  cases mhl with
  | none =>
    exfalso
    cases mh <;>
    · simp only [update, Option.some.injEq, Prod.mk.injEq] at h
      rw [← h.2] at hdet
      exact hdet rfl
  | some mhl =>
    cases mh with
    | none =>
      exfalso
      simp only [update, Option.some.injEq, Prod.mk.injEq] at h
      rw [← h.2] at hdet
      exact hdet rfl
    | some mh =>
      rw [update] at h
      dsimp only at h
      cases hloop : updateLoop mhl mh tr now with
      | none => rw [hloop] at h; exact absurd h (by simp)
      | some out1 =>
        obtain ⟨tr1, lD, rD, lv, rv⟩ := out1
        rw [hloop] at h
        dsimp only at h
        simp only [Option.some.injEq, Prod.mk.injEq] at h
        obtain ⟨h1, h2⟩ := h
        cases lD with
        | false =>
          exfalso
          rw [← h2] at hdet
          exact hdet (by simp)
        | true =>
          have hup := updateLoop_leftPunch mhl mh tr now tr1 true rD lv rv
            hloop hclk
          have hleft : tr2.leftHandState = tr1.leftHandState := by
            rw [← h1]
            simp
          have hlev : out.leftEvents = lv := by
            rw [← h2]
          rw [hleft, hlev]
          exact hup

/-- The per-tick left events of a run, prepended. -/
theorem leftPunchTimes_cons (now : ℝ) (out : UpdateRet)
    (logs : List (ℝ × UpdateRet)) :
    leftPunchTimes ((now, out) :: logs) =
      out.leftEvents.map (fun _ => now) ++ leftPunchTimes logs := by
  simp [leftPunchTimes]

/-- The chained cooldown property for the left side, by induction over the
run: if the left hand is detected on every tick and tick times are
non-decreasing, consecutive left punch events are separated by more than
the cooldown, and every event lies beyond the current punch base. -/
theorem runTicks_leftChain :
    ∀ (ticks : List (ℝ × Results)) (tr : Tracker) (tprev : ℝ) (tr2 : Tracker)
      (logs : List (ℝ × UpdateRet)),
      runTicks tr ticks = some (tr2, logs) →
      List.Chain' (· ≤ ·) (tprev :: ticks.map Prod.fst) →
      (∀ lg ∈ logs, lg.2.left ≠ none) →
      tr.leftHandState.lastPunchTime ≤ tprev →
      List.Chain' (fun a b => a + PUNCH_COOLDOWN ≤ b) (leftPunchTimes logs) ∧
      ∀ e ∈ leftPunchTimes logs,
        punchBase tr.leftHandState tprev + PUNCH_COOLDOWN < e := by
  intro ticks
  induction ticks with
  | nil =>
    intro tr tprev tr2 logs h hchain hdet hclk
    simp only [runTicks, Option.some.injEq, Prod.mk.injEq] at h
    rw [← h.2]
    exact ⟨List.chain'_nil, by simp [leftPunchTimes]⟩
  | cons t rest ih =>
    intro tr tprev tr2 logs h hchain hdet hclk
    obtain ⟨now, res⟩ := t
    rw [runTicks] at h
    cases hup : update res tr now with
    | none => rw [hup] at h; exact absurd h (by simp)
    | some out1 =>
      obtain ⟨tr1, out⟩ := out1
      rw [hup] at h
      dsimp only at h
      cases hrec : runTicks tr1 rest with
      | none => rw [hrec] at h; exact absurd h (by simp)
      | some out2 =>
        obtain ⟨tr3, logs1⟩ := out2
        rw [hrec] at h
        dsimp only at h
        simp only [Option.some.injEq, Prod.mk.injEq] at h
        obtain ⟨h1, h2⟩ := h
        have hprevnow : tprev ≤ now := by
          have := hchain.rel_head
          simpa using this
        have hchain2 : List.Chain' (· ≤ ·) (now :: rest.map Prod.fst) := by
          have := List.Chain'.tail hchain
          simpa using this
        have hdethead : out.left ≠ none := by
          have := hdet (now, out) (by rw [← h2]; exact List.mem_cons_self _ _)
          exact this
        have hdetrest : ∀ lg ∈ logs1, lg.2.left ≠ none := by
          intro lg hlg
          exact hdet lg (by rw [← h2]; exact List.mem_cons_of_mem _ hlg)
        have happ := update_leftPunch res tr now tr1 out hup hdethead
          (hclk.trans hprevnow)
        have hih := ih tr1 now tr3 logs1 hrec hchain2 hdetrest happ.1
        have hlogs : leftPunchTimes logs =
            out.leftEvents.map (fun _ => now) ++ leftPunchTimes logs1 := by
          rw [← h2, leftPunchTimes_cons]
        cases hlevs : out.leftEvents with
        | nil =>
          have hbase : punchBase tr.leftHandState tprev ≤
              punchBase tr1.leftHandState now := by
            unfold punchBase
            cases hsp : tr.leftHandState.isPunching with
            | false =>
              have hc := (happ.2.1 hlevs).1 hsp
              rw [hc.1, hc.2]
              simp
            | true =>
              have hc := (happ.2.1 hlevs).2 hsp
              simp only [if_pos rfl]
              cases hc with
              | inl hpun => rw [hpun]; simpa using hprevnow
              | inr hlp =>
                cases tr1.leftHandState.isPunching
                · simpa [hlp] using hprevnow
                · simpa using hprevnow
          constructor
          · rw [hlogs, hlevs]
            simp only [List.map_nil, List.nil_append]
            exact hih.1
          · intro e he
            rw [hlogs, hlevs] at he
            simp only [List.map_nil, List.nil_append] at he
            have := hih.2 e he
            linarith [hbase]
        | cons e0 es =>
          have hfire := happ.2.2 (by rw [hlevs]; simp)
          have hes : es = [] := by
            have := hfire.1
            rw [hlevs] at this
            simpa using this
          have hbase1 : punchBase tr1.leftHandState now = now := by
            unfold punchBase
            cases hfire.2.2.2 with
            | inl hpun => rw [hpun]; simp
            | inr hlp =>
              cases tr1.leftHandState.isPunching
              · simpa using hlp
              · simp
          have htimes : leftPunchTimes logs = now :: leftPunchTimes logs1 := by
            rw [hlogs, hlevs, hes]
            simp
          have hbase0 : punchBase tr.leftHandState tprev =
              tr.leftHandState.lastPunchTime := by
            unfold punchBase
            rw [hfire.2.1]
            simp
          constructor
          · rw [htimes, List.chain'_cons']
            constructor
            · intro b hb
              have hbmem : b ∈ leftPunchTimes logs1 :=
                List.mem_of_mem_head? hb
              have := hih.2 b hbmem
              rw [hbase1] at this
              linarith
            · exact hih.1
          · intro e he
            rw [htimes] at he
            cases he with
            | head =>
              rw [hbase0]
              exact hfire.2.2.1
            | tail _ hmem =>
              have := hih.2 e hmem
              rw [hbase1] at this
              rw [hbase0]
              have hlpb : tr.leftHandState.lastPunchTime ≤ now :=
                hclk.trans hprevnow
              linarith

end DepthSensor

namespace DepthSensor

/-- Mirror of `updateLoop_leftAfter` for the right side. -/
theorem updateLoop_rightAfter :
    ∀ (hands : List (List Landmark)) (hs : List Handedness) (tr : Tracker)
      (now : ℝ) (tr1 : Tracker) (lDet rDet : Bool)
      (levs revs : List PunchEvent),
      updateLoop hands hs tr now = some (tr1, lDet, rDet, levs, revs) →
      tr.rightHandState.lastPunchTime ≤ now →
      afterPunch tr.rightHandState now →
      revs = [] ∧ afterPunch tr1.rightHandState now ∧
      tr1.rightHandState.lastPunchTime ≤ now := by
  intro hands
  induction hands with
  | nil =>
    intro hs tr now tr1 lDet rDet levs revs h hclk hafter
    simp only [updateLoop, Option.some.injEq, Prod.mk.injEq] at h
    obtain ⟨h1, -, -, -, h5⟩ := h
    rw [← h1, ← h5]
    exact ⟨rfl, hafter, hclk⟩
  | cons lm rest ih =>
    intro hs tr now tr1 lDet rDet levs revs h hclk hafter
    cases hs with
    | nil => exact absurd h (by simp [updateLoop])
    | cons hd hrest =>
      by_cases hlab : hd.label = "Right"
      · rw [updateLoop, if_pos hlab] at h
        cases hph : processHand lm tr.leftHandState "left" now with
        | none => rw [hph] at h; exact absurd h (by simp)
        | some pr =>
          obtain ⟨l2, ev⟩ := pr
          rw [hph] at h
          dsimp only at h
          cases hrec : updateLoop rest hrest
              { tr with leftHandState := l2 } now with
          | none => rw [hrec] at h; exact absurd h (by simp)
          | some out =>
            obtain ⟨tr2, lD, rD, lv, rv⟩ := out
            rw [hrec] at h
            dsimp only at h
            simp only [Option.some.injEq, Prod.mk.injEq] at h
            obtain ⟨h1, -, -, -, h5⟩ := h
            have hih := ih hrest { tr with leftHandState := l2 } now tr2 lD rD
              lv rv hrec hclk hafter
            refine ⟨?_, ?_, ?_⟩
            · rw [← h5]
              exact hih.1
            · rw [← h1]
              exact hih.2.1
            · rw [← h1]
              exact hih.2.2
      · rw [updateLoop, if_neg hlab] at h
        cases hph : processHand lm tr.rightHandState "right" now with
        | none => rw [hph] at h; exact absurd h (by simp)
        | some pr =>
          obtain ⟨r2, ev⟩ := pr
          rw [hph] at h
          dsimp only at h
          cases hrec : updateLoop rest hrest
              { tr with rightHandState := r2 } now with
          | none => rw [hrec] at h; exact absurd h (by simp)
          | some out =>
            obtain ⟨tr2, lD, rD, lv, rv⟩ := out
            rw [hrec] at h
            dsimp only at h
            simp only [Option.some.injEq, Prod.mk.injEq] at h
            have hcall := processHand_afterPunch lm tr.rightHandState "right"
              now r2 ev hph hclk hafter
            have hih := ih hrest { tr with rightHandState := r2 } now tr2 lD rD
              lv rv hrec hcall.2.2 hcall.2.1
            obtain ⟨h1, -, -, -, h5⟩ := h
            refine ⟨?_, ?_, ?_⟩
            · rw [← h5, hcall.1, hih.1]
              rfl
            · rw [← h1]
              exact hih.2.1
            · rw [← h1]
              exact hih.2.2

/-- Mirror of `updateLoop_leftPunch` for the right side. -/
theorem updateLoop_rightPunch :
    ∀ (hands : List (List Landmark)) (hs : List Handedness) (tr : Tracker)
      (now : ℝ) (tr1 : Tracker) (lDet rDet : Bool)
      (levs revs : List PunchEvent),
      updateLoop hands hs tr now = some (tr1, lDet, rDet, levs, revs) →
      tr.rightHandState.lastPunchTime ≤ now →
      tr1.rightHandState.lastPunchTime ≤ now ∧
      (revs = [] →
        (tr.rightHandState.isPunching = false →
          tr1.rightHandState.isPunching = false ∧
          tr1.rightHandState.lastPunchTime = tr.rightHandState.lastPunchTime) ∧
        (tr.rightHandState.isPunching = true →
          afterPunch tr1.rightHandState now)) ∧
      (revs ≠ [] →
        revs.length = 1 ∧ tr.rightHandState.isPunching = false ∧
        tr.rightHandState.lastPunchTime + PUNCH_COOLDOWN < now ∧
        afterPunch tr1.rightHandState now) := by
  intro hands
  induction hands with
  | nil =>
    intro hs tr now tr1 lDet rDet levs revs h hclk
    simp only [updateLoop, Option.some.injEq, Prod.mk.injEq] at h
    obtain ⟨h1, -, -, -, h5⟩ := h
    rw [← h1, ← h5]
    exact ⟨hclk, fun _ => ⟨fun hsp => ⟨hsp, rfl⟩, fun hsp => Or.inl hsp⟩,
      fun hne => absurd rfl hne⟩
  | cons lm rest ih =>
    intro hs tr now tr1 lDet rDet levs revs h hclk
    cases hs with
    | nil => exact absurd h (by simp [updateLoop])
    | cons hd hrest =>
      by_cases hlab : hd.label = "Right"
      · rw [updateLoop, if_pos hlab] at h
        cases hph : processHand lm tr.leftHandState "left" now with
        | none => rw [hph] at h; exact absurd h (by simp)
        | some pr =>
          obtain ⟨l2, ev⟩ := pr
          rw [hph] at h
          dsimp only at h
          cases hrec : updateLoop rest hrest
              { tr with leftHandState := l2 } now with
          | none => rw [hrec] at h; exact absurd h (by simp)
          | some out =>
            obtain ⟨tr2, lD, rD, lv, rv⟩ := out
            rw [hrec] at h
            dsimp only at h
            simp only [Option.some.injEq, Prod.mk.injEq] at h
            obtain ⟨h1, -, -, -, h5⟩ := h
            have hih := ih hrest { tr with leftHandState := l2 } now tr2 lD rD
              lv rv hrec hclk
            rw [← h1, ← h5]
            exact hih
      · rw [updateLoop, if_neg hlab] at h
        cases hph : processHand lm tr.rightHandState "right" now with
        | none => rw [hph] at h; exact absurd h (by simp)
        | some pr =>
          obtain ⟨r2, ev⟩ := pr
          rw [hph] at h
          dsimp only at h
          cases hrec : updateLoop rest hrest
              { tr with rightHandState := r2 } now with
          | none => rw [hrec] at h; exact absurd h (by simp)
          | some out =>
            obtain ⟨tr2, lD, rD, lv, rv⟩ := out
            rw [hrec] at h
            dsimp only at h
            simp only [Option.some.injEq, Prod.mk.injEq] at h
            obtain ⟨h1, -, -, -, h5⟩ := h
            have hcall := processHand_punchStep lm tr.rightHandState "right"
              now r2 ev hph hclk
            cases hevc : ev with
            | none =>
              have hih := ih hrest { tr with rightHandState := r2 } now tr2 lD
                rD lv rv hrec hcall.1
              have hrevs : revs = rv := by
                rw [← h5, hevc]
                rfl
              rw [hevc] at hcall
              refine ⟨by rw [← h1]; exact hih.1, ?_, ?_⟩
              · intro hnil
                rw [hrevs] at hnil
                constructor
                · intro hsp
                  have hc1 := (hcall.2.1 rfl).1 hsp
                  have hi1 := (hih.2.1 hnil).1 hc1.1
                  rw [← h1]
                  exact ⟨hi1.1, hi1.2.trans hc1.2⟩
                · intro hsp
                  have hc2 := (hcall.2.1 rfl).2 hsp
                  rw [← h1]
                  cases hc2 with
                  | inl hpun => exact (hih.2.1 hnil).2 hpun
                  | inr hlp =>
                    cases hr2 : r2.isPunching with
                    | true => exact (hih.2.1 hnil).2 hr2
                    | false =>
                      have hi1 := (hih.2.1 hnil).1 hr2
                      exact Or.inr (hi1.2.trans hlp)
              · intro hne
                rw [hrevs] at hne
                have hic := hih.2.2 hne
                have hspf : tr.rightHandState.isPunching = false := by
                  cases hsp : tr.rightHandState.isPunching with
                  | false => rfl
                  | true =>
                    exfalso
                    have hc2 := (hcall.2.1 rfl).2 hsp
                    cases hc2 with
                    | inl hpun => rw [hic.2.1] at hpun; exact absurd hpun (by simp)
                    | inr hlp =>
                      have := hic.2.2.1
                      rw [hlp, PUNCH_COOLDOWN] at this
                      linarith
                have hc1 := (hcall.2.1 rfl).1 hspf
                refine ⟨by rw [hrevs]; exact hic.1, hspf, ?_,
                  by rw [← h1]; exact hic.2.2.2⟩
                have := hic.2.2.1
                rw [hc1.2] at this
                exact this
            | some e =>
              rw [hevc] at hcall
              have hfire := hcall.2.2 (by simp)
              have hrest2 := updateLoop_rightAfter rest hrest
                { tr with rightHandState := r2 } now tr2 lD rD lv rv hrec
                hcall.1 hfire.2.2
              have hrevs : revs = [e] := by
                rw [← h5, hevc, hrest2.1]
                rfl
              refine ⟨by rw [← h1]; exact hrest2.2.2, ?_, ?_⟩
              · intro hnil
                rw [hrevs] at hnil
                exact absurd hnil (by simp)
              · intro hne
                exact ⟨by rw [hrevs]; rfl, hfire.1, hfire.2.1,
                  by rw [← h1]; exact hrest2.2.1⟩

end DepthSensor

namespace DepthSensor

/-- Mirror of `update_leftPunch` for the right side. -/
theorem update_rightPunch (res : Results) (tr : Tracker) (now : ℝ)
    (tr2 : Tracker) (out : UpdateRet)
    (h : update res tr now = some (tr2, out)) (hdet : out.right ≠ none)
    (hclk : tr.rightHandState.lastPunchTime ≤ now) :
    tr2.rightHandState.lastPunchTime ≤ now ∧
    (out.rightEvents = [] →
      (tr.rightHandState.isPunching = false →
        tr2.rightHandState.isPunching = false ∧
        tr2.rightHandState.lastPunchTime = tr.rightHandState.lastPunchTime) ∧
      (tr.rightHandState.isPunching = true →
        afterPunch tr2.rightHandState now)) ∧
    (out.rightEvents ≠ [] →
      out.rightEvents.length = 1 ∧ tr.rightHandState.isPunching = false ∧
      tr.rightHandState.lastPunchTime + PUNCH_COOLDOWN < now ∧
      afterPunch tr2.rightHandState now) := by
  obtain ⟨mhl, mh⟩ := res
  cases mhl with
  | none =>
    exfalso
    cases mh <;>
    · simp only [update, Option.some.injEq, Prod.mk.injEq] at h
      rw [← h.2] at hdet
      exact hdet rfl
  | some mhl =>
    cases mh with
    | none =>
      exfalso
      simp only [update, Option.some.injEq, Prod.mk.injEq] at h
      rw [← h.2] at hdet
      exact hdet rfl
    | some mh =>
      rw [update] at h
      dsimp only at h
      cases hloop : updateLoop mhl mh tr now with
      | none => rw [hloop] at h; exact absurd h (by simp)
      | some out1 =>
        obtain ⟨tr1, lD, rD, lv, rv⟩ := out1
        rw [hloop] at h
        dsimp only at h
        simp only [Option.some.injEq, Prod.mk.injEq] at h
        obtain ⟨h1, h2⟩ := h
        cases rD with
        | false =>
          exfalso
          rw [← h2] at hdet
          exact hdet (by simp)
        | true =>
          have hup := updateLoop_rightPunch mhl mh tr now tr1 lD true lv rv
            hloop hclk
          have hright : tr2.rightHandState = tr1.rightHandState := by
            rw [← h1]
            simp
          have hrev : out.rightEvents = rv := by
            rw [← h2]
          rw [hright, hrev]
          exact hup

/-- The per-tick right events of a run, prepended. -/
theorem rightPunchTimes_cons (now : ℝ) (out : UpdateRet)
    (logs : List (ℝ × UpdateRet)) :
    rightPunchTimes ((now, out) :: logs) =
      out.rightEvents.map (fun _ => now) ++ rightPunchTimes logs := by
  simp [rightPunchTimes]

/-- Mirror of `runTicks_leftChain` for the right side. -/
theorem runTicks_rightChain :
    ∀ (ticks : List (ℝ × Results)) (tr : Tracker) (tprev : ℝ) (tr2 : Tracker)
      (logs : List (ℝ × UpdateRet)),
      runTicks tr ticks = some (tr2, logs) →
      List.Chain' (· ≤ ·) (tprev :: ticks.map Prod.fst) →
      (∀ lg ∈ logs, lg.2.right ≠ none) →
      tr.rightHandState.lastPunchTime ≤ tprev →
      List.Chain' (fun a b => a + PUNCH_COOLDOWN ≤ b) (rightPunchTimes logs) ∧
      ∀ e ∈ rightPunchTimes logs,
        punchBase tr.rightHandState tprev + PUNCH_COOLDOWN < e := by
  intro ticks
  induction ticks with
  | nil =>
    intro tr tprev tr2 logs h hchain hdet hclk
    simp only [runTicks, Option.some.injEq, Prod.mk.injEq] at h
    rw [← h.2]
    exact ⟨List.chain'_nil, by simp [rightPunchTimes]⟩
  | cons t rest ih =>
    intro tr tprev tr2 logs h hchain hdet hclk
    obtain ⟨now, res⟩ := t
    rw [runTicks] at h
    cases hup : update res tr now with
    | none => rw [hup] at h; exact absurd h (by simp)
    | some out1 =>
      obtain ⟨tr1, out⟩ := out1
      rw [hup] at h
      dsimp only at h
      cases hrec : runTicks tr1 rest with
      | none => rw [hrec] at h; exact absurd h (by simp)
      | some out2 =>
        obtain ⟨tr3, logs1⟩ := out2
        rw [hrec] at h
        dsimp only at h
        simp only [Option.some.injEq, Prod.mk.injEq] at h
        obtain ⟨h1, h2⟩ := h
        have hprevnow : tprev ≤ now := by
          have := hchain.rel_head
          simpa using this
        have hchain2 : List.Chain' (· ≤ ·) (now :: rest.map Prod.fst) := by
          have := List.Chain'.tail hchain
          simpa using this
        have hdethead : out.right ≠ none := by
          have := hdet (now, out) (by rw [← h2]; exact List.mem_cons_self _ _)
          exact this
        have hdetrest : ∀ lg ∈ logs1, lg.2.right ≠ none := by
          intro lg hlg
          exact hdet lg (by rw [← h2]; exact List.mem_cons_of_mem _ hlg)
        have happ := update_rightPunch res tr now tr1 out hup hdethead
          (hclk.trans hprevnow)
        have hih := ih tr1 now tr3 logs1 hrec hchain2 hdetrest happ.1
        have hlogs : rightPunchTimes logs =
            out.rightEvents.map (fun _ => now) ++ rightPunchTimes logs1 := by
          rw [← h2, rightPunchTimes_cons]
        cases hrevs : out.rightEvents with
        | nil =>
          have hbase : punchBase tr.rightHandState tprev ≤
              punchBase tr1.rightHandState now := by
            unfold punchBase
            cases hsp : tr.rightHandState.isPunching with
            | false =>
              have hc := (happ.2.1 hrevs).1 hsp
              rw [hc.1, hc.2]
              simp
            | true =>
              have hc := (happ.2.1 hrevs).2 hsp
              simp only [if_pos rfl]
              cases hc with
              | inl hpun => rw [hpun]; simpa using hprevnow
              | inr hlp =>
                cases tr1.rightHandState.isPunching
                · simpa [hlp] using hprevnow
                · simpa using hprevnow
          constructor
          · rw [hlogs, hrevs]
            simp only [List.map_nil, List.nil_append]
            exact hih.1
          · intro e he
            rw [hlogs, hrevs] at he
            simp only [List.map_nil, List.nil_append] at he
            have := hih.2 e he
            linarith [hbase]
        | cons e0 es =>
          have hfire := happ.2.2 (by rw [hrevs]; simp)
          have hes : es = [] := by
            have := hfire.1
            rw [hrevs] at this
            simpa using this
          have hbase1 : punchBase tr1.rightHandState now = now := by
            unfold punchBase
            cases hfire.2.2.2 with
            | inl hpun => rw [hpun]; simp
            | inr hlp =>
              cases tr1.rightHandState.isPunching
              · simpa using hlp
              · simp
          have htimes : rightPunchTimes logs = now :: rightPunchTimes logs1 := by
            rw [hlogs, hrevs, hes]
            simp
          have hbase0 : punchBase tr.rightHandState tprev =
              tr.rightHandState.lastPunchTime := by
            unfold punchBase
            rw [hfire.2.1]
            simp
          constructor
          · rw [htimes, List.chain'_cons']
            constructor
            · intro b hb
              have hbmem : b ∈ rightPunchTimes logs1 :=
                List.mem_of_mem_head? hb
              have := hih.2 b hbmem
              rw [hbase1] at this
              linarith
            · exact hih.1
          · intro e he
            rw [htimes] at he
            cases he with
            | head =>
              rw [hbase0]
              exact hfire.2.2.1
            | tail _ hmem =>
              have := hih.2 e hmem
              rw [hbase1] at this
              rw [hbase0]
              have hlpb : tr.rightHandState.lastPunchTime ≤ now :=
                hclk.trans hprevnow
              linarith

end DepthSensor

namespace DepthSensor

/-- Claim C1 (amended): on every run whose tick times are non-decreasing
(starting from 0) and on which the given side's hand is detected on every
tick, consecutive punch events on that side are separated by at least the
80 ms cooldown.  (When a punch is instead ended by a tick on which the hand
is not detected, `update` clears `isPunching` without recording
`lastPunchTime`, and the property fails — see the counterexample.) -/
theorem punch_cooldown_amended :
    (∀ (ticks : List (ℝ × Results)) (tr2 : Tracker)
      (logs : List (ℝ × UpdateRet)),
      runTicks initialTracker ticks = some (tr2, logs) →
      List.Chain' (· ≤ ·) ((0:ℝ) :: ticks.map Prod.fst) →
      (∀ lg ∈ logs, lg.2.left ≠ none) →
      List.Chain' (fun a b => a + PUNCH_COOLDOWN ≤ b) (leftPunchTimes logs)) ∧
    (∀ (ticks : List (ℝ × Results)) (tr2 : Tracker)
      (logs : List (ℝ × UpdateRet)),
      runTicks initialTracker ticks = some (tr2, logs) →
      List.Chain' (· ≤ ·) ((0:ℝ) :: ticks.map Prod.fst) →
      (∀ lg ∈ logs, lg.2.right ≠ none) →
      List.Chain' (fun a b => a + PUNCH_COOLDOWN ≤ b)
        (rightPunchTimes logs)) := by
  constructor
  · intro ticks tr2 logs h hchain hdet
    exact (runTicks_leftChain ticks initialTracker 0 tr2 logs h hchain hdet
      (by simp [initialTracker, createHandState])).1
  · intro ticks tr2 logs h hchain hdet
    exact (runTicks_rightChain ticks initialTracker 0 tr2 logs h hchain hdet
      (by simp [initialTracker, createHandState])).1

/-- Witness for C1 (amended): the one-tick detected run satisfies the
chained cooldown property. -/
theorem punch_cooldown_amended_witness :
    List.Chain' (fun a b : ℝ => a + PUNCH_COOLDOWN ≤ b)
      (leftPunchTimes
        [(1000,
          { left := some tick1State
            right := none
            leftEvents := []
            rightEvents := [] })]) :=
  punch_cooldown_amended.1 oneTick
    { leftHandState := tick1State, rightHandState := createHandState } _
    runTicks_oneTick
    (by norm_num [oneTick, List.chain'_cons, List.chain'_singleton])
    (by intro lg hlg; simp at hlg; rw [hlg]; simp)

end DepthSensor
